import Mathlib

/-! # ST7565R LCD driver: a shallow embedding of `lcd.c` and of the demo in `main.c`

The driver talks to the display through memory-mapped registers of the
microcontroller, through the SPI bus and through busy-wait delays.  The
embedding makes that explicit: a machine state holds the value of every
register the driver touches together with the ordered log of everything the
driver did (register writes, bus transfers, delays).  Each C function becomes
a function on machine states.

Bytes (`uint8_t`) are natural numbers; arithmetic that can leave the byte
range in C (`ascii_char - 0x20`, the loop counters `page++` and `i++`) is
reduced modulo 256 explicitly.  Loops whose trip count depends on a
configuration constant take a fuel argument and return `none` when it runs
out.  Reading outside an object (a glyph table entry that does not exist, a
string without terminator) is undefined in C and yields `none`.
-/

namespace ST7565R

/-! ## Machine state -/

/-- Registers of the microcontroller written by the driver. -/
inductive Reg where
  | DDRA
  | DDRB
  | DDRC
  | PORTA
  | PORTC
  | SPCR
  | SPSR
  deriving DecidableEq, Repr

/-- One observable action of the driver. -/
inductive Event where
  /-- A store of `v` to register `r`. -/
  | write (r : Reg) (v : Nat)
  /-- One byte exchanged on the SPI bus. -/
  | spi (b : Nat)
  /-- A call of `_delay_us`. -/
  | delay_us (n : Nat)
  /-- A call of `_delay_ms`. -/
  | delay_ms (n : Nat)
  deriving DecidableEq, Repr

/-- Machine state: register file and the log of actions so far. -/
structure Mcu where
  regs : Reg → Nat
  trace : List Event

/-- Store to a register; the store is logged. -/
def Mcu.write (r : Reg) (v : Nat) (s : Mcu) : Mcu :=
  { regs := Function.update s.regs r v, trace := s.trace ++ [Event.write r v] }

/-- Append an action that changes no register. -/
def Mcu.emit (e : Event) (s : Mcu) : Mcu :=
  { s with trace := s.trace ++ [e] }

/-- The C statement `r |= m`. -/
def reg_or (r : Reg) (m : Nat) (s : Mcu) : Mcu :=
  s.write r (s.regs r ||| m)

/-- The C statement `r &= ~m` on an 8-bit register: `~m` keeps, of the low
eight bits, exactly those not in `m`. -/
def reg_and_not (r : Reg) (m : Nat) (s : Mcu) : Mcu :=
  s.write r (s.regs r &&& (0xFF ^^^ m))

/-- The C statement `r = v`. -/
def reg_assign (r : Reg) (v : Nat) (s : Mcu) : Mcu :=
  s.write r v

/-! ## Constants of `system_config.h` and of the device header -/

def LCD_TOTAL_PAGES : Nat := 8
def LCD_TOTAL_COLUMNS : Nat := 128

def DATA_CMD_PORT : Reg := Reg.PORTA
def CS_PORT : Reg := Reg.PORTC
def RST_PORT : Reg := Reg.PORTA

/-- Bit number `PINA0`. -/
def DATA_CMD_PIN : Nat := 0
/-- Bit number `PINC0`. -/
def CS_PIN : Nat := 0
/-- Bit number `PINA1`. -/
def RST_PIN : Nat := 1
/-- Bit number `PINB0`. -/
def LCD_SS : Nat := 0
/-- Bit number `PINB1`. -/
def LCD_SCK : Nat := 1
/-- Bit number `PINB2`. -/
def LCD_MOSI : Nat := 2
/-- Bit number `PINB3`. -/
def LCD_MISO : Nat := 3

/-- Bit numbers of the SPI control register (device header of the ATmega128A). -/
def SPE : Nat := 6
def MSTR : Nat := 4
def CPOL : Nat := 3
def CPHA : Nat := 2
def SPR1 : Nat := 1
def SPR0 : Nat := 0

/-! ## The driver -/

/-- Modelled from the spec: the macro `SPI_SEND` of `lcd.h`, which is not among
the sources.  It performs one byte exchange over the serial bus and its result
is not used. -/
def SPI_SEND (b : Nat) (s : Mcu) : Mcu :=
  s.emit (Event.spi b)

def _delay_us (n : Nat) (s : Mcu) : Mcu :=
  s.emit (Event.delay_us n)

def _delay_ms (n : Nat) (s : Mcu) : Mcu :=
  s.emit (Event.delay_ms n)

def lcd_spi_init (s : Mcu) : Mcu :=
  let s := reg_or Reg.DDRA ((1 <<< DATA_CMD_PIN) ||| (1 <<< RST_PIN)) s
  let s := reg_or Reg.DDRC (1 <<< CS_PIN) s
  let s := reg_or Reg.DDRB ((1 <<< LCD_SS) ||| (1 <<< LCD_SCK) ||| (1 <<< LCD_MOSI)) s
  let s := reg_or Reg.SPCR ((1 <<< SPE) ||| (1 <<< MSTR) ||| (1 <<< CPOL) ||| (1 <<< CPHA)) s
  reg_assign Reg.SPSR 0x00 s

def lcd_write_data (data : Nat) (s : Mcu) : Mcu :=
  let s := reg_or DATA_CMD_PORT (1 <<< DATA_CMD_PIN) s
  let s := reg_and_not CS_PORT (1 <<< CS_PIN) s
  let s := SPI_SEND data s
  reg_or CS_PORT (1 <<< CS_PIN) s

def lcd_write_cmd (cmd : Nat) (s : Mcu) : Mcu :=
  let s := reg_and_not DATA_CMD_PORT (1 <<< DATA_CMD_PIN) s
  let s := reg_and_not CS_PORT (1 <<< CS_PIN) s
  let s := SPI_SEND cmd s
  let s := reg_or CS_PORT (1 <<< CS_PIN) s
  _delay_us 25 s

def lcd_init (s : Mcu) : Mcu :=
  let s := _delay_ms 10 s
  let s := reg_or RST_PORT (1 <<< RST_PIN) s
  let s := _delay_ms 10 s
  let s := lcd_write_cmd 0xA0 s
  let s := lcd_write_cmd 0xAE s
  let s := lcd_write_cmd 0xC8 s
  let s := lcd_write_cmd 0xA3 s
  let s := lcd_write_cmd 0x2F s
  let s := lcd_write_cmd 0x26 s
  let s := lcd_write_cmd 0x81 s
  let s := lcd_write_cmd 0x07 s
  let s := lcd_write_cmd 0xAF s
  let s := lcd_write_cmd 0xA4 s
  let s := lcd_write_cmd 0x40 s
  let s := lcd_write_cmd 0xB0 s
  let s := lcd_write_cmd 0x10 s
  let s := lcd_write_cmd 0x00 s
  let s := lcd_write_data 0xFF s
  let s := lcd_write_data 0xFF s
  let s := lcd_write_data 0xFF s
  let s := lcd_write_data 0xFF s
  lcd_write_data 0xFF s

def lcd_set_cursor (page column : Nat) (s : Mcu) : Mcu :=
  let s := lcd_write_cmd (0xB0 ||| (page &&& 0x0F)) s
  let s := lcd_write_cmd (0x10 ||| ((column >>> 4) &&& 0x0F)) s
  lcd_write_cmd (column &&& 0x0F) s

/-- The inner loop of `lcd_clear`,
`for (uint8_t i = ...; i < COLUMNS; i++) lcd_write_data(0x00);`,
entered with counter value `i`. -/
def lcd_clear_columns (COLUMNS : Nat) : Nat → Nat → Mcu → Option Mcu
  | 0, _, _ => none
  | fuel + 1, i, s =>
    if i < COLUMNS then
      lcd_clear_columns COLUMNS fuel ((i + 1) % 256) (lcd_write_data 0x00 s)
    else
      some s

/-- The outer loop of `lcd_clear`,
`for (uint8_t page = ...; page <= PAGES; page++) { ... }`,
entered with counter value `page`. -/
def lcd_clear_pages (PAGES COLUMNS : Nat) : Nat → Nat → Mcu → Option Mcu
  | 0, _, _ => none
  | fuel + 1, page, s =>
    if page ≤ PAGES then
      match lcd_clear_columns COLUMNS fuel 0 (lcd_set_cursor page 0x00 s) with
      | none => none
      | some s1 => lcd_clear_pages PAGES COLUMNS fuel ((page + 1) % 256) s1
    else
      some s

/-- The body of `lcd_clear` for a display geometry given by the two
configuration constants. -/
def lcd_clear_with (PAGES COLUMNS : Nat) (fuel : Nat) (s : Mcu) : Option Mcu :=
  lcd_clear_pages PAGES COLUMNS fuel 0 s

def lcd_clear (fuel : Nat) (s : Mcu) : Option Mcu :=
  lcd_clear_with LCD_TOTAL_PAGES LCD_TOTAL_COLUMNS fuel s

/-- The index `uint8_t index = ascii_char - 0x20;` of `lcd_print_char`. -/
def glyph_index (ascii_char : Nat) : Nat :=
  (ascii_char + 256 - 0x20) % 256

/-- The loop of `lcd_print_char`,
`for (uint8_t i = ...; i < 6; i++) lcd_write_data(pgm_read_byte(&char_data[i]));`,
with `n` iterations left, entered with counter value `i`. -/
def lcd_print_glyph (char_data : List Nat) : Nat → Nat → Mcu → Option Mcu
  | 0, _, s => some s
  | n + 1, i, s =>
    match char_data[i]? with
    | none => none
    | some byte => lcd_print_glyph char_data n (i + 1) (lcd_write_data byte s)

/-- The function `lcd_print_char`.  The glyph table `Char_Table` is declared
outside the sources at hand and is a parameter: a list of rows of bytes. -/
def lcd_print_char (Char_Table : List (List Nat)) (ascii_char : Nat) (s : Mcu) :
    Option Mcu :=
  let index := glyph_index ascii_char
  match Char_Table[index]? with
  | none => none
  | some char_data => lcd_print_glyph char_data 6 0 s

/-- The loop of `lcd_print_str`,
`while ((c = pgm_read_byte(print_str++)) != 0) lcd_print_char(c);`.
The argument is the content of program memory from `print_str` to the end of
the object it points into. -/
def lcd_print_chars (Char_Table : List (List Nat)) : List Nat → Mcu → Option Mcu
  | [], _ => none
  | c :: rest, s =>
    if c ≠ 0 then
      match lcd_print_char Char_Table c s with
      | none => none
      | some s1 => lcd_print_chars Char_Table rest s1
    else
      some s

def lcd_print_str (Char_Table : List (List Nat)) (page column : Nat)
    (print_str : List Nat) (s : Mcu) : Option Mcu :=
  lcd_print_chars Char_Table print_str (lcd_set_cursor page column s)

/-! ## What the display controller sees -/

/-- One byte as received by the controller: the level of the data/command
line and of the chip-select line while the byte was clocked out. -/
structure Xfer where
  a0 : Bool
  cs : Bool
  byte : Nat
  deriving DecidableEq, Repr

/-- A command byte: data/command line low, chip-select low (active). -/
def Xfer.cmd (b : Nat) : Xfer := ⟨false, false, b⟩

/-- A data byte: data/command line high, chip-select low (active). -/
def Xfer.data (b : Nat) : Xfer := ⟨true, false, b⟩

/-- The bus transfers of a log, each with the line levels in force when it
happened.  The first two arguments are the levels before the log starts. -/
def busBytes : Bool → Bool → List Event → List Xfer
  | _, _, [] => []
  | a0, cs, Event.spi b :: es => ⟨a0, cs, b⟩ :: busBytes a0 cs es
  | a0, cs, Event.write r v :: es =>
    busBytes (if r = DATA_CMD_PORT then v.testBit DATA_CMD_PIN else a0)
      (if r = CS_PORT then v.testBit CS_PIN else cs) es
  | a0, cs, _ :: es => busBytes a0 cs es

/-- The level of the data/command line after a log, given the level before. -/
def a0After : Bool → List Event → Bool
  | a0, [] => a0
  | a0, Event.write r v :: es =>
    a0After (if r = DATA_CMD_PORT then v.testBit DATA_CMD_PIN else a0) es
  | a0, _ :: es => a0After a0 es

/-- The level of the chip-select line after a log, given the level before. -/
def csAfter : Bool → List Event → Bool
  | cs, [] => cs
  | cs, Event.write r v :: es =>
    csAfter (if r = CS_PORT then v.testBit CS_PIN else cs) es
  | cs, _ :: es => csAfter cs es

/-- The actions performed on the way from state `s` to the later state `s1`. -/
def emitted (s s1 : Mcu) : List Event :=
  s1.trace.drop s.trace.length

/-- Observer of the settle time of commands.  It follows the data/command
line, remembers whether a command byte has been transferred that has not yet
been given its 25 microseconds, and records a violation when a transfer starts
in that situation. -/
structure Monitor where
  a0 : Bool
  pending : Bool
  violated : Bool
  deriving DecidableEq, Repr

def Monitor.step (m : Monitor) : Event → Monitor
  | Event.write r v =>
    if r = DATA_CMD_PORT then { m with a0 := v.testBit DATA_CMD_PIN } else m
  | Event.spi _ => { m with pending := !m.a0, violated := m.violated || m.pending }
  | Event.delay_us n => if n = 25 then { m with pending := false } else m
  | Event.delay_ms _ => m

/-- Every command byte in the log is followed by a 25 microsecond delay before
the next transfer and before the end of the log.  The first argument is the
level of the data/command line when the log starts. -/
def settled (a0 : Bool) (ev : List Event) : Bool :=
  let m := ev.foldl Monitor.step ⟨a0, false, false⟩
  !m.pending && !m.violated

/-- The step from `s` to `s1` only appends to the log; what it appends shows
the controller exactly the transfers `L`, whatever the line levels were
before, and respects the settle time of commands. -/
def Runs (s s1 : Mcu) (L : List Xfer) : Prop :=
  ∃ ev, s1.trace = s.trace ++ ev
    ∧ (∀ a0 cs, busBytes a0 cs ev = L)
    ∧ (∀ m : Monitor, m.pending = false → m.violated = false →
        (ev.foldl Monitor.step m).pending = false
          ∧ (ev.foldl Monitor.step m).violated = false)

/-! ## Closed forms of the loops -/

/-- A run of data writes, one per byte of the list, first byte first. -/
def sendData (bytes : List Nat) (s : Mcu) : Mcu :=
  bytes.foldl (fun st b => lcd_write_data b st) s

/-- The state after `n` rounds of the outer loop of `lcd_clear` that start at
counter value `page`: each round sets the cursor and writes `COLUMNS` zeros. -/
def clearPagesFrom (COLUMNS : Nat) : Nat → Nat → Mcu → Mcu
  | 0, _, s => s
  | n + 1, page, s =>
    clearPagesFrom COLUMNS n (page + 1)
      (sendData (List.replicate COLUMNS 0x00) (lcd_set_cursor page 0x00 s))

/-- Bytes 0 to 5 of the glyph table entry of a character code, the entry
being the one at position `ascii_char - 0x20`. -/
def glyphBytes (Char_Table : List (List Nat)) (ascii_char : Nat) : List Nat :=
  (Char_Table.getD (ascii_char - 0x20) []).take 6

/-! ## Concrete inputs -/

/-- The state with every register zero and an empty log. -/
def Mcu.zero : Mcu :=
  { regs := fun _ => 0, trace := [] }

/-- A glyph table with 0x23 entries of 6 bytes; entries 0x21 and 0x22 carry
patterns, the others are blank. -/
def testTable : List (List Nat) :=
  List.replicate 0x21 [0x00, 0x00, 0x00, 0x00, 0x00, 0x00]
    ++ [[0x7C, 0x12, 0x11, 0x12, 0x7C, 0x00], [0x7F, 0x49, 0x49, 0x49, 0x36, 0x00]]

/-! ## The demo of `main.c` -/

/-- The bytes of a C string literal: its characters and the terminating NUL. -/
def cString (text : String) : List Nat :=
  text.toList.map Char.toNat ++ [0]

def label : List Nat := cString "LCD TEST v1"
def special1 : List Nat := cString " !\"#$%&'()*+,-./"
def digits : List Nat := cString "0123456789"
def special2 : List Nat := cString ":;<=>?@[\\]^_`"
def alphabet1 : List Nat := cString "ABCDEFGHIJKLMNOPQRSTU"
def alphabet2 : List Nat := cString "VWXYZabcdefghijklmnop"
def alphabet3 : List Nat := cString "qrstuvwxyz"
def special3 : List Nat := cString "\x7b|\x7d~"
def lastSpecial : Nat := 0x7F

/-- The function `init` of `main.c`.  The calls `cli()` and `sei()` around the
two initialisations act on the interrupt flag of the processor, which is not
part of the machine state here. -/
def init (s : Mcu) : Mcu :=
  let s := lcd_spi_init s
  lcd_init s

/-- The function `main` up to its final endless loop, which only waits. -/
def main (Char_Table : List (List Nat)) (fuel : Nat) (s : Mcu) : Option Mcu := do
  let s := init s
  let s ← lcd_clear fuel s
  let s ← lcd_print_str Char_Table 0 0 label s
  let s ← lcd_print_str Char_Table 1 0 special1 s
  let s ← lcd_print_str Char_Table 2 0 digits s
  let s ← lcd_print_str Char_Table 3 0 special2 s
  let s ← lcd_print_str Char_Table 4 0 alphabet1 s
  let s ← lcd_print_str Char_Table 5 0 alphabet2 s
  let s ← lcd_print_str Char_Table 6 0 alphabet3 s
  let s ← lcd_print_str Char_Table 7 0 special3 s
  lcd_print_char Char_Table lastSpecial s

/-- The arguments of the eight `lcd_print_str` calls of `main`, in call order:
page, column, text. -/
def demoCalls : List (Nat × Nat × List Nat) :=
  [(0, 0, label), (1, 0, special1), (2, 0, digits), (3, 0, special2),
   (4, 0, alphabet1), (5, 0, alphabet2), (6, 0, alphabet3), (7, 0, special3)]

/-- The characters of a text in program memory: what precedes the first NUL. -/
def textChars (text : List Nat) : List Nat :=
  text.takeWhile (fun c => c ≠ 0)

/-- A glyph table with the 0x60 entries of the printable range, each of six
bytes; the bytes themselves are arbitrary. -/
def fullTable : List (List Nat) :=
  (List.range 0x60).map (fun k => [k, k + 1, k + 2, k + 3, k + 4, k + 5])

/-! ## Register frames -/

/-- Every bit of the 8-bit data/command port other than the data/command bit
has the same value in both states. -/
def portKept (s s1 : Mcu) : Prop :=
  ∀ i, i ≤ 7 → i ≠ DATA_CMD_PIN →
    (s1.regs DATA_CMD_PORT).testBit i = (s.regs DATA_CMD_PORT).testBit i

/-- A relation between a state and a later one that holds when nothing
happens, composes, and holds across each of the two byte writers. -/
def StepClosed (R : Mcu → Mcu → Prop) : Prop :=
  (∀ s, R s s)
    ∧ (∀ s s1 s2, R s s1 → R s1 s2 → R s s2)
    ∧ (∀ cmd s, R s (lcd_write_cmd cmd s))
    ∧ (∀ data s, R s (lcd_write_data data s))

/-! ## Basic facts about logs -/

theorem busBytes_append (t1 t2 : List Event) (a0 cs : Bool) :
    busBytes a0 cs (t1 ++ t2)
      = busBytes a0 cs t1 ++ busBytes (a0After a0 t1) (csAfter cs t1) t2 := by
  induction t1 generalizing a0 cs with
  | nil => simp [busBytes, a0After, csAfter]
  | cons e es ih =>
    cases e <;> simp [busBytes, a0After, csAfter, ih]

theorem emitted_of_append {s s1 : Mcu} {ev : List Event}
    (h : s1.trace = s.trace ++ ev) : emitted s s1 = ev := by
  simp [emitted, h]

theorem Runs.refl (s : Mcu) : Runs s s [] :=
  ⟨[], by simp, fun _ _ => rfl, fun _ hp hv => ⟨hp, hv⟩⟩

theorem Runs.trans {s s1 s2 : Mcu} {L1 L2 : List Xfer}
    (h1 : Runs s s1 L1) (h2 : Runs s1 s2 L2) : Runs s s2 (L1 ++ L2) := by
  obtain ⟨e1, t1, b1, m1⟩ := h1
  obtain ⟨e2, t2, b2, m2⟩ := h2
  refine ⟨e1 ++ e2, by rw [t2, t1, List.append_assoc], ?_, ?_⟩
  · intro a0 cs
    rw [busBytes_append, b1, b2]
  · intro m hp hv
    rw [List.foldl_append]
    exact m2 _ (m1 m hp hv).1 (m1 m hp hv).2

theorem Runs.bus {s s1 : Mcu} {L : List Xfer} (h : Runs s s1 L) (a0 cs : Bool) :
    busBytes a0 cs (emitted s s1) = L := by
  obtain ⟨ev, t, b, _⟩ := h
  rw [emitted_of_append t]
  exact b a0 cs

theorem Runs.settled {s s1 : Mcu} {L : List Xfer} (h : Runs s s1 L) (a0 : Bool) :
    settled a0 (emitted s s1) = true := by
  obtain ⟨ev, t, _, m⟩ := h
  rw [emitted_of_append t]
  have := m ⟨a0, false, false⟩ rfl rfl
  simp [ST7565R.settled, this.1, this.2]

/-! ## The two byte writers -/

theorem lcd_write_cmd_trace (cmd : Nat) (s : Mcu) :
    (lcd_write_cmd cmd s).trace = s.trace ++
      [Event.write Reg.PORTA (s.regs Reg.PORTA &&& 0xFE),
       Event.write Reg.PORTC (s.regs Reg.PORTC &&& 0xFE),
       Event.spi cmd,
       Event.write Reg.PORTC (s.regs Reg.PORTC &&& 0xFE ||| 1),
       Event.delay_us 25] := by
  simp [lcd_write_cmd, reg_and_not, reg_or, SPI_SEND, _delay_us, Mcu.write, Mcu.emit,
    DATA_CMD_PORT, CS_PORT, DATA_CMD_PIN, CS_PIN]

theorem lcd_write_data_trace (data : Nat) (s : Mcu) :
    (lcd_write_data data s).trace = s.trace ++
      [Event.write Reg.PORTA (s.regs Reg.PORTA ||| 1),
       Event.write Reg.PORTC (s.regs Reg.PORTC &&& 0xFE),
       Event.spi data,
       Event.write Reg.PORTC (s.regs Reg.PORTC &&& 0xFE ||| 1)] := by
  simp [lcd_write_data, reg_and_not, reg_or, SPI_SEND, Mcu.write, Mcu.emit,
    DATA_CMD_PORT, CS_PORT, DATA_CMD_PIN, CS_PIN]

theorem runs_write_cmd (cmd : Nat) (s : Mcu) :
    Runs s (lcd_write_cmd cmd s) [Xfer.cmd cmd] := by
  refine ⟨_, lcd_write_cmd_trace cmd s, ?_, ?_⟩
  · intro a0 cs
    simp [busBytes, DATA_CMD_PORT, CS_PORT, DATA_CMD_PIN, CS_PIN, Xfer.cmd]
  · intro m hp hv
    simp [Monitor.step, DATA_CMD_PORT, DATA_CMD_PIN, hp, hv]

theorem runs_write_data (data : Nat) (s : Mcu) :
    Runs s (lcd_write_data data s) [Xfer.data data] := by
  refine ⟨_, lcd_write_data_trace data s, ?_, ?_⟩
  · intro a0 cs
    simp [busBytes, DATA_CMD_PORT, CS_PORT, DATA_CMD_PIN, CS_PIN, Xfer.data]
  · intro m hp hv
    simp [Monitor.step, DATA_CMD_PORT, DATA_CMD_PIN, hp, hv]

theorem runs_set_cursor (page column : Nat) (s : Mcu) :
    Runs s (lcd_set_cursor page column s)
      [Xfer.cmd (0xB0 ||| (page &&& 0x0F)),
       Xfer.cmd (0x10 ||| ((column >>> 4) &&& 0x0F)),
       Xfer.cmd (column &&& 0x0F)] :=
  ((runs_write_cmd _ s).trans (runs_write_cmd _ _)).trans (runs_write_cmd _ _)

/-! ## Initialisation -/

theorem runs_init_preamble (s : Mcu) :
    Runs s (_delay_ms 10 (reg_or RST_PORT (1 <<< RST_PIN) (_delay_ms 10 s))) [] := by
  refine ⟨[Event.delay_ms 10, Event.write Reg.PORTA (s.regs Reg.PORTA ||| 2),
    Event.delay_ms 10], ?_, ?_, ?_⟩
  · simp [_delay_ms, reg_or, Mcu.write, Mcu.emit, RST_PORT, RST_PIN]
  · intro a0 cs
    simp [busBytes]
  · intro m hp hv
    simp only [List.foldl, Monitor.step]
    split <;> simp [hp, hv]

theorem runs_init (s : Mcu) : Runs s (lcd_init s)
    ([Xfer.cmd 0xA0, Xfer.cmd 0xAE, Xfer.cmd 0xC8, Xfer.cmd 0xA3, Xfer.cmd 0x2F,
     Xfer.cmd 0x26, Xfer.cmd 0x81, Xfer.cmd 0x07, Xfer.cmd 0xAF, Xfer.cmd 0xA4,
     Xfer.cmd 0x40, Xfer.cmd 0xB0, Xfer.cmd 0x10, Xfer.cmd 0x00,
     Xfer.data 0xFF, Xfer.data 0xFF, Xfer.data 0xFF, Xfer.data 0xFF, Xfer.data 0xFF]) := by
  have h := (((((((((((((((((((runs_init_preamble s).trans
    (runs_write_cmd 0xA0 _)).trans (runs_write_cmd 0xAE _)).trans
    (runs_write_cmd 0xC8 _)).trans (runs_write_cmd 0xA3 _)).trans
    (runs_write_cmd 0x2F _)).trans (runs_write_cmd 0x26 _)).trans
    (runs_write_cmd 0x81 _)).trans (runs_write_cmd 0x07 _)).trans
    (runs_write_cmd 0xAF _)).trans (runs_write_cmd 0xA4 _)).trans
    (runs_write_cmd 0x40 _)).trans (runs_write_cmd 0xB0 _)).trans
    (runs_write_cmd 0x10 _)).trans (runs_write_cmd 0x00 _)).trans
    (runs_write_data 0xFF _)).trans (runs_write_data 0xFF _)).trans
    (runs_write_data 0xFF _)).trans (runs_write_data 0xFF _)).trans
    (runs_write_data 0xFF _)
  exact h

/-! ## Loops -/

theorem runs_sendData (bytes : List Nat) (s : Mcu) :
    Runs s (sendData bytes s) (bytes.map Xfer.data) := by
  induction bytes generalizing s with
  | nil => exact Runs.refl s
  | cons b bs ih =>
    have h := (runs_write_data b s).trans (ih (lcd_write_data b s))
    simpa [sendData] using h

theorem sendData_append (xs ys : List Nat) (s : Mcu) :
    sendData (xs ++ ys) s = sendData ys (sendData xs s) := by
  simp [sendData, List.foldl_append]

theorem lcd_clear_columns_eq (C : Nat) (hC : C ≤ 255) :
    ∀ (n fuel i : Nat) (s : Mcu), i + n = C → n < fuel →
      lcd_clear_columns C fuel i s = some (sendData (List.replicate n 0x00) s) := by
  intro n
  induction n with
  | zero =>
    intro fuel i s hi hf
    obtain ⟨f, rfl⟩ : ∃ f, fuel = f + 1 := ⟨fuel - 1, by omega⟩
    have : ¬ i < C := by omega
    simp [lcd_clear_columns, this, sendData]
  | succ n ih =>
    intro fuel i s hi hf
    obtain ⟨f, rfl⟩ : ∃ f, fuel = f + 1 := ⟨fuel - 1, by omega⟩
    have h1 : i < C := by omega
    have h2 : (i + 1) % 256 = i + 1 := Nat.mod_eq_of_lt (by omega)
    rw [lcd_clear_columns, if_pos h1, h2, ih f (i + 1) _ (by omega) (by omega)]
    simp [sendData, List.replicate_succ]

theorem lcd_clear_pages_eq (P C : Nat) (hP : P ≤ 254) (hC : C ≤ 255) :
    ∀ (n fuel page : Nat) (s : Mcu), page + n = P + 1 → n + C + 1 ≤ fuel →
      lcd_clear_pages P C fuel page s = some (clearPagesFrom C n page s) := by
  intro n
  induction n with
  | zero =>
    intro fuel page s hp hf
    obtain ⟨f, rfl⟩ : ∃ f, fuel = f + 1 := ⟨fuel - 1, by omega⟩
    have : ¬ page ≤ P := by omega
    simp [lcd_clear_pages, this, clearPagesFrom]
  | succ n ih =>
    intro fuel page s hp hf
    obtain ⟨f, rfl⟩ : ∃ f, fuel = f + 1 := ⟨fuel - 1, by omega⟩
    have h1 : page ≤ P := by omega
    have h2 : (page + 1) % 256 = page + 1 := Nat.mod_eq_of_lt (by omega)
    rw [lcd_clear_pages, if_pos h1,
      lcd_clear_columns_eq C hC C f 0 _ (by omega) (by omega)]
    simp only [h2]
    rw [ih f (page + 1) _ (by omega) (by omega)]
    rfl

theorem runs_clearPagesFrom (C : Nat) :
    ∀ (n page : Nat) (s : Mcu),
      Runs s (clearPagesFrom C n page s)
        ((List.range' page n).flatMap (fun p =>
          [Xfer.cmd (0xB0 ||| (p &&& 0x0F)), Xfer.cmd 0x10, Xfer.cmd 0x00]
            ++ List.replicate C (Xfer.data 0x00))) := by
  intro n
  induction n with
  | zero => intro page s; exact Runs.refl s
  | succ n ih =>
    intro page s
    have h := ((runs_set_cursor page 0x00 s).trans
      (runs_sendData (List.replicate C 0x00) _)).trans (ih (page + 1) _)
    simpa [clearPagesFrom, List.range'_succ, List.flatMap_cons] using h

/-! ## Character output -/

theorem lcd_print_glyph_eq (row : List Nat) :
    ∀ (n i : Nat) (s : Mcu), i + n ≤ row.length →
      lcd_print_glyph row n i s = some (sendData ((row.drop i).take n) s) := by
  intro n
  induction n with
  | zero => intro i s _; simp [lcd_print_glyph, sendData]
  | succ n ih =>
    intro i s h
    have hi : i < row.length := by omega
    rw [lcd_print_glyph, List.getElem?_eq_getElem hi]
    simp only
    rw [ih (i + 1) _ (by omega), List.drop_eq_getElem_cons hi]
    simp only [sendData, List.take_succ_cons, List.foldl_cons]

theorem glyph_index_eq (ascii_char : Nat) (h1 : 0x20 ≤ ascii_char)
    (h2 : ascii_char ≤ 0xFF) : glyph_index ascii_char = ascii_char - 0x20 := by
  unfold glyph_index
  omega

theorem lcd_print_char_eq (tbl : List (List Nat)) (ascii_char : Nat) (s : Mcu)
    (h1 : 0x20 ≤ ascii_char) (h2 : ascii_char ≤ 0xFF)
    (h6 : 6 ≤ (tbl.getD (ascii_char - 0x20) []).length) :
    lcd_print_char tbl ascii_char s = some (sendData (glyphBytes tbl ascii_char) s) := by
  have hlt : ascii_char - 0x20 < tbl.length := by
    by_contra hge
    rw [List.getD_eq_default _ _ (by omega)] at h6
    simp at h6
  have hrow : tbl.getD (ascii_char - 0x20) [] = tbl[ascii_char - 0x20] := by
    simp [List.getD_eq_getElem?_getD, List.getElem?_eq_getElem hlt]
  rw [hrow] at h6
  unfold lcd_print_char
  simp only [glyph_index_eq ascii_char h1 h2, List.getElem?_eq_getElem hlt]
  rw [lcd_print_glyph_eq _ 6 0 s (by omega)]
  simp only [glyphBytes, hrow, List.drop_zero]

theorem lcd_print_chars_eq (tbl : List (List Nat)) (rest : List Nat) :
    ∀ (chars : List Nat) (s : Mcu),
      (∀ c ∈ chars, 0x20 ≤ c ∧ c ≤ 0xFF ∧ 6 ≤ (tbl.getD (c - 0x20) []).length) →
      lcd_print_chars tbl (chars ++ 0 :: rest) s
        = some (sendData (chars.flatMap (glyphBytes tbl)) s) := by
  intro chars
  induction chars with
  | nil => intro s _; simp [lcd_print_chars, sendData]
  | cons c cs ih =>
    intro s h
    obtain ⟨h1, h2, h6⟩ := h c (by simp)
    have hc : c ≠ 0 := by omega
    rw [List.cons_append, lcd_print_chars, if_pos hc, lcd_print_char_eq tbl c s h1 h2 h6]
    simp only
    rw [ih _ (fun d hd => h d (by simp [hd]))]
    simp [List.flatMap_cons, sendData_append]

theorem lcd_print_str_eq (tbl : List (List Nat)) (page column : Nat)
    (chars rest : List Nat) (s : Mcu)
    (h : ∀ c ∈ chars, 0x20 ≤ c ∧ c ≤ 0xFF ∧ 6 ≤ (tbl.getD (c - 0x20) []).length) :
    lcd_print_str tbl page column (chars ++ 0 :: rest) s
      = some (sendData (chars.flatMap (glyphBytes tbl)) (lcd_set_cursor page column s)) := by
  unfold lcd_print_str
  exact lcd_print_chars_eq tbl rest chars _ h

theorem runs_print_str (tbl : List (List Nat)) (page column : Nat)
    (chars : List Nat) (s : Mcu) :
    Runs s (sendData (chars.flatMap (glyphBytes tbl)) (lcd_set_cursor page column s))
      ([Xfer.cmd (0xB0 ||| (page &&& 0x0F)),
        Xfer.cmd (0x10 ||| ((column >>> 4) &&& 0x0F)),
        Xfer.cmd (column &&& 0x0F)]
        ++ chars.flatMap (fun c => (glyphBytes tbl c).map Xfer.data)) := by
  have h := (runs_set_cursor page column s).trans
    (runs_sendData (chars.flatMap (glyphBytes tbl)) _)
  simpa [List.map_flatMap] using h

theorem glyphBytes_length (tbl : List (List Nat)) (c : Nat)
    (h6 : 6 ≤ (tbl.getD (c - 0x20) []).length) : (glyphBytes tbl c).length = 6 := by
  simp only [glyphBytes, List.length_take]
  omega

/-! ## Counting and ranges -/

theorem clear_bytes_count (C : Nat) (g : Nat → Nat) :
    ∀ (n page : Nat),
      ((List.range' page n).flatMap (fun p =>
          [Xfer.cmd (g p), Xfer.cmd 0x10, Xfer.cmd 0x00]
            ++ List.replicate C (Xfer.data 0x00))).countP (fun x => x.a0) = n * C
      ∧ ((List.range' page n).flatMap (fun p =>
          [Xfer.cmd (g p), Xfer.cmd 0x10, Xfer.cmd 0x00]
            ++ List.replicate C (Xfer.data 0x00))).countP (fun x => !x.a0) = n * 3 := by
  intro n
  induction n with
  | zero => intro page; simp
  | succ n ih =>
    intro page
    obtain ⟨h1, h2⟩ := ih (page + 1)
    simp only [List.range'_succ, List.flatMap_cons, List.countP_append, h1, h2]
    simp only [List.countP_cons, List.countP_nil, List.countP_replicate, Xfer.cmd, Xfer.data]
    constructor
    · simp; ring
    · simp; ring

theorem glyph_data_length (tbl : List (List Nat)) :
    ∀ chars : List Nat,
      (∀ c ∈ chars, 0x20 ≤ c ∧ c ≤ 0xFF ∧ 6 ≤ (tbl.getD (c - 0x20) []).length) →
      (chars.flatMap (fun c => (glyphBytes tbl c).map Xfer.data)).length
        = 6 * chars.length := by
  intro chars
  induction chars with
  | nil => intro _; rfl
  | cons c cs ih =>
    intro h
    have hc := glyphBytes_length tbl c (h c (by simp)).2.2
    have hcs := ih (fun d hd => h d (by simp [hd]))
    simp only [List.flatMap_cons, List.length_append, List.length_map, hc, hcs,
      List.length_cons]
    ring

theorem page_byte_range (page : Nat) :
    0xB0 ≤ 0xB0 ||| (page &&& 0x0F) ∧ 0xB0 ||| (page &&& 0x0F) ≤ 0xBF := by
  have h : page &&& 0x0F ≤ 0x0F := Nat.and_le_right
  generalize page &&& 0x0F = y at h
  interval_cases y <;> decide

/-! ## Runs of arbitrary calls -/

theorem runs_of_clear_columns (C : Nat) :
    ∀ (fuel i : Nat) (s s1 : Mcu),
      lcd_clear_columns C fuel i s = some s1 → ∃ L, Runs s s1 L := by
  intro fuel
  induction fuel with
  | zero => intro i s s1 h; simp [lcd_clear_columns] at h
  | succ f ih =>
    intro i s s1 h
    rw [lcd_clear_columns] at h
    split at h
    · obtain ⟨L, hL⟩ := ih _ _ _ h
      exact ⟨_, (runs_write_data 0x00 s).trans hL⟩
    · cases h
      exact ⟨_, Runs.refl s⟩

theorem runs_of_clear_pages (P C : Nat) :
    ∀ (fuel page : Nat) (s s1 : Mcu),
      lcd_clear_pages P C fuel page s = some s1 → ∃ L, Runs s s1 L := by
  intro fuel
  induction fuel with
  | zero => intro page s s1 h; simp [lcd_clear_pages] at h
  | succ f ih =>
    intro page s s1 h
    rw [lcd_clear_pages] at h
    split at h
    · split at h
      · cases h
      · rename_i s2 hcols
        obtain ⟨L1, h1⟩ := runs_of_clear_columns C _ _ _ _ hcols
        obtain ⟨L2, h2⟩ := ih _ _ _ h
        exact ⟨_, ((runs_set_cursor page 0x00 s).trans h1).trans h2⟩
    · cases h
      exact ⟨_, Runs.refl s⟩

theorem runs_of_print_glyph (row : List Nat) :
    ∀ (n i : Nat) (s s1 : Mcu),
      lcd_print_glyph row n i s = some s1 → ∃ L, Runs s s1 L := by
  intro n
  induction n with
  | zero =>
    intro i s s1 h
    simp only [lcd_print_glyph, Option.some.injEq] at h
    subst h
    exact ⟨_, Runs.refl s⟩
  | succ n ih =>
    intro i s s1 h
    rw [lcd_print_glyph] at h
    split at h
    · cases h
    · rename_i byte _
      obtain ⟨L, hL⟩ := ih _ _ _ h
      exact ⟨_, (runs_write_data byte s).trans hL⟩

theorem runs_of_print_char (tbl : List (List Nat)) (ascii_char : Nat) (s s1 : Mcu)
    (h : lcd_print_char tbl ascii_char s = some s1) : ∃ L, Runs s s1 L := by
  unfold lcd_print_char at h
  simp only at h
  split at h
  · cases h
  · exact runs_of_print_glyph _ _ _ _ _ h

theorem runs_of_print_chars (tbl : List (List Nat)) :
    ∀ (text : List Nat) (s s1 : Mcu),
      lcd_print_chars tbl text s = some s1 → ∃ L, Runs s s1 L := by
  intro text
  induction text with
  | nil => intro s s1 h; simp [lcd_print_chars] at h
  | cons c rest ih =>
    intro s s1 h
    rw [lcd_print_chars] at h
    split at h
    · split at h
      · cases h
      · rename_i s2 hchar
        obtain ⟨L1, h1⟩ := runs_of_print_char tbl c s s2 hchar
        obtain ⟨L2, h2⟩ := ih _ _ h
        exact ⟨_, h1.trans h2⟩
    · cases h
      exact ⟨_, Runs.refl s⟩

/-! ## The settle-time monitor on sample logs -/

theorem settled_examples :
    settled true [Event.write Reg.PORTA 0, Event.spi 0xA0, Event.delay_us 25,
        Event.write Reg.PORTA 1, Event.spi 0xFF, Event.spi 0xFF] = true
    ∧ settled true [Event.write Reg.PORTA 0, Event.spi 0xA0] = false
    ∧ settled true [Event.write Reg.PORTA 0, Event.spi 0xA0, Event.spi 0xAE,
        Event.delay_us 25] = false
    ∧ settled true [Event.write Reg.PORTA 0, Event.spi 0xA0, Event.delay_us 24,
        Event.write Reg.PORTA 1, Event.spi 0xFF] = false := by
  decide

/-! ## Properties of the driver -/

/-- C1: for every page in [0,15] and every column in [0,255], `lcd_set_cursor`
emits exactly three bytes, all of them commands and none of them data, namely
`0xB0 | (page & 0x0F)`, `0x10 | ((column >> 4) & 0x0F)` and `column & 0x0F`, in
that order. -/
theorem lcd_set_cursor_emits (page column : Nat) (s : Mcu) (a0 cs : Bool) :
    page ≤ 15 → column ≤ 255 →
    busBytes a0 cs (emitted s (lcd_set_cursor page column s))
      = [Xfer.cmd (0xB0 ||| (page &&& 0x0F)),
         Xfer.cmd (0x10 ||| ((column >>> 4) &&& 0x0F)),
         Xfer.cmd (column &&& 0x0F)] := by
  intro _ _
  exact (runs_set_cursor page column s).bus a0 cs

theorem lcd_set_cursor_emits_witness :
    (3 : Nat) ≤ 15 ∧ (0x5A : Nat) ≤ 255 ∧
    busBytes true true (emitted Mcu.zero (lcd_set_cursor 3 0x5A Mcu.zero))
      = [Xfer.cmd 0xB3, Xfer.cmd 0x15, Xfer.cmd 0x0A] :=
  ⟨by decide, by decide,
    lcd_set_cursor_emits 3 0x5A Mcu.zero true true (by decide) (by decide)⟩

/-- C2: `lcd_init` transfers exactly 19 bytes on the bus: the 14 command bytes
0xA0, 0xAE, 0xC8, 0xA3, 0x2F, 0x26, 0x81, 0x07, 0xAF, 0xA4, 0x40, 0xB0, 0x10,
0x00 in this order, then 5 data bytes 0xFF. -/
theorem lcd_init_emits (s : Mcu) (a0 cs : Bool) :
    busBytes a0 cs (emitted s (lcd_init s))
      = [Xfer.cmd 0xA0, Xfer.cmd 0xAE, Xfer.cmd 0xC8, Xfer.cmd 0xA3, Xfer.cmd 0x2F,
         Xfer.cmd 0x26, Xfer.cmd 0x81, Xfer.cmd 0x07, Xfer.cmd 0xAF, Xfer.cmd 0xA4,
         Xfer.cmd 0x40, Xfer.cmd 0xB0, Xfer.cmd 0x10, Xfer.cmd 0x00,
         Xfer.data 0xFF, Xfer.data 0xFF, Xfer.data 0xFF, Xfer.data 0xFF,
         Xfer.data 0xFF] :=
  (runs_init s).bus a0 cs

/-- C3: with 8 pages and 128 columns `lcd_clear` returns once it has fuel for
its loops, and what it transfers is, for p = 0, 1, ..., 8 in increasing order,
the three command bytes 0xB0 | p, 0x10, 0x00 followed by 128 data bytes 0x00,
and nothing else: 27 command bytes and 1152 data bytes. -/
theorem lcd_clear_emits (fuel : Nat) (s : Mcu) (a0 cs : Bool) :
    138 ≤ fuel →
    ∃ s1, lcd_clear fuel s = some s1
      ∧ busBytes a0 cs (emitted s s1)
          = (List.range 9).flatMap (fun p =>
              [Xfer.cmd (0xB0 ||| p), Xfer.cmd 0x10, Xfer.cmd 0x00]
                ++ List.replicate 128 (Xfer.data 0x00))
      ∧ (busBytes a0 cs (emitted s s1)).countP (fun x => x.a0) = 9 * 128
      ∧ (busBytes a0 cs (emitted s s1)).countP (fun x => !x.a0) = 9 * 3 := by
  intro hfuel
  have hrun : lcd_clear fuel s = some (clearPagesFrom 128 9 0 s) :=
    lcd_clear_pages_eq 8 128 (by decide) (by decide) 9 fuel 0 s (by decide)
      (by omega)
  have hbus := (runs_clearPagesFrom 128 9 0 s).bus a0 cs
  have hlist : (List.range' 0 9).flatMap (fun p =>
        [Xfer.cmd (0xB0 ||| (p &&& 0x0F)), Xfer.cmd 0x10, Xfer.cmd 0x00]
          ++ List.replicate 128 (Xfer.data 0x00))
      = (List.range 9).flatMap (fun p =>
        [Xfer.cmd (0xB0 ||| p), Xfer.cmd 0x10, Xfer.cmd 0x00]
          ++ List.replicate 128 (Xfer.data 0x00)) := by
    rw [List.range_eq_range']
    apply List.flatMap_congr
    intro p hp
    have hp9 : p < 9 := by simpa using hp
    have : 0xB0 ||| (p &&& 0x0F) = 0xB0 ||| p := by
      interval_cases p <;> rfl
    rw [this]
  have hcount := clear_bytes_count 128 (fun p => 0xB0 ||| p) 9 0
  rw [hlist] at hbus
  rw [← List.range_eq_range'] at hcount
  refine ⟨_, hrun, hbus, ?_, ?_⟩
  · rw [hbus]; exact hcount.1
  · rw [hbus]; exact hcount.2

theorem lcd_clear_emits_witness :
    138 ≤ 138 ∧
    ∃ s1, lcd_clear 138 Mcu.zero = some s1
      ∧ busBytes true true (emitted Mcu.zero s1)
          = (List.range 9).flatMap (fun p =>
              [Xfer.cmd (0xB0 ||| p), Xfer.cmd 0x10, Xfer.cmd 0x00]
                ++ List.replicate 128 (Xfer.data 0x00))
      ∧ (busBytes true true (emitted Mcu.zero s1)).countP (fun x => x.a0) = 9 * 128
      ∧ (busBytes true true (emitted Mcu.zero s1)).countP (fun x => !x.a0) = 9 * 3 :=
  ⟨by decide, lcd_clear_emits 138 Mcu.zero true true (by decide)⟩

/-- C4: for every glyph table and every character code in [0x20, 0xFF] whose
table entry `ascii_char - 0x20` exists and has bytes 0 to 5, `lcd_print_char`
returns and transfers exactly 6 bytes, all of them data and none of them a
command: bytes 0 to 5 of that entry, in order. -/
theorem lcd_print_char_emits (Char_Table : List (List Nat)) (ascii_char : Nat)
    (row : List Nat) (s : Mcu) (a0 cs : Bool) :
    0x20 ≤ ascii_char → ascii_char ≤ 0xFF →
    Char_Table[ascii_char - 0x20]? = some row → 6 ≤ row.length →
    ∃ s1, lcd_print_char Char_Table ascii_char s = some s1
      ∧ busBytes a0 cs (emitted s s1) = (row.take 6).map Xfer.data
      ∧ (busBytes a0 cs (emitted s s1)).length = 6 := by
  intro h1 h2 hrow h6
  have hget : Char_Table.getD (ascii_char - 0x20) [] = row := by
    simp [List.getD_eq_getElem?_getD, hrow]
  have hrun := lcd_print_char_eq Char_Table ascii_char s h1 h2 (by rw [hget]; exact h6)
  have hbus := (runs_sendData (glyphBytes Char_Table ascii_char) s).bus a0 cs
  have hg : glyphBytes Char_Table ascii_char = row.take 6 := by
    simp only [glyphBytes, hget]
  rw [hg] at hbus hrun
  refine ⟨_, hrun, hbus, ?_⟩
  rw [hbus, List.length_map, List.length_take]
  omega

theorem lcd_print_char_emits_witness :
    0x20 ≤ 0x41 ∧ 0x41 ≤ 0xFF
    ∧ testTable[0x41 - 0x20]? = some [0x7C, 0x12, 0x11, 0x12, 0x7C, 0x00]
    ∧ 6 ≤ [0x7C, 0x12, 0x11, 0x12, 0x7C, 0x00].length
    ∧ ∃ s1, lcd_print_char testTable 0x41 Mcu.zero = some s1
      ∧ busBytes false true (emitted Mcu.zero s1)
          = [Xfer.data 0x7C, Xfer.data 0x12, Xfer.data 0x11, Xfer.data 0x12,
             Xfer.data 0x7C, Xfer.data 0x00]
      ∧ (busBytes false true (emitted Mcu.zero s1)).length = 6 :=
  ⟨by decide, by decide, by decide, by decide,
    lcd_print_char_emits testTable 0x41 [0x7C, 0x12, 0x11, 0x12, 0x7C, 0x00]
      Mcu.zero false true (by decide) (by decide) (by decide) (by decide)⟩

/-- C5: for every page, every column and every text that consists of N
characters in the range of the glyph table, a NUL, and anything after it,
`lcd_print_str` returns and transfers the three command bytes of
`lcd_set_cursor page column` once, followed by the 6 * N data bytes obtained by
concatenating the glyph bytes of the characters in text order.  All commands
come before the first data byte, and nothing after the NUL is rendered. -/
theorem lcd_print_str_emits (Char_Table : List (List Nat)) (page column : Nat)
    (chars rest : List Nat) (s : Mcu) (a0 cs : Bool) :
    (∀ c ∈ chars, 0x20 ≤ c ∧ c ≤ 0xFF ∧ 6 ≤ (Char_Table.getD (c - 0x20) []).length) →
    ∃ s1, lcd_print_str Char_Table page column (chars ++ 0 :: rest) s = some s1
      ∧ busBytes a0 cs (emitted s s1)
          = busBytes a0 cs (emitted s (lcd_set_cursor page column s))
            ++ chars.flatMap (fun c => (glyphBytes Char_Table c).map Xfer.data)
      ∧ busBytes a0 cs (emitted s (lcd_set_cursor page column s))
          = [Xfer.cmd (0xB0 ||| (page &&& 0x0F)),
             Xfer.cmd (0x10 ||| ((column >>> 4) &&& 0x0F)),
             Xfer.cmd (column &&& 0x0F)]
      ∧ (chars.flatMap (fun c => (glyphBytes Char_Table c).map Xfer.data)).length
          = 6 * chars.length
      ∧ ∀ x ∈ chars.flatMap (fun c => (glyphBytes Char_Table c).map Xfer.data),
          x.a0 = true ∧ x.cs = false := by
  intro h
  have hrun := lcd_print_str_eq Char_Table page column chars rest s h
  have hbus := (runs_print_str Char_Table page column chars s).bus a0 cs
  have hcur := (runs_set_cursor page column s).bus a0 cs
  refine ⟨_, hrun, ?_, hcur, ?_, ?_⟩
  · rw [hbus, hcur]
  · exact glyph_data_length Char_Table chars h
  · intro x hx
    simp only [List.mem_flatMap, List.mem_map] at hx
    obtain ⟨c, _, b, _, rfl⟩ := hx
    exact ⟨rfl, rfl⟩

theorem lcd_print_str_emits_witness :
    (∀ c ∈ [0x41, 0x42],
      0x20 ≤ c ∧ c ≤ 0xFF ∧ 6 ≤ (testTable.getD (c - 0x20) []).length)
    ∧ ∃ s1, lcd_print_str testTable 2 0x30 [0x41, 0x42, 0, 0x41] Mcu.zero = some s1
      ∧ busBytes true true (emitted Mcu.zero s1)
          = [Xfer.cmd 0xB2, Xfer.cmd 0x13, Xfer.cmd 0x00,
             Xfer.data 0x7C, Xfer.data 0x12, Xfer.data 0x11, Xfer.data 0x12,
             Xfer.data 0x7C, Xfer.data 0x00,
             Xfer.data 0x7F, Xfer.data 0x49, Xfer.data 0x49, Xfer.data 0x49,
             Xfer.data 0x36, Xfer.data 0x00] :=
  ⟨by decide, by
    obtain ⟨s1, h1, h2, h3, _⟩ :=
      lcd_print_str_emits testTable 2 0x30 [0x41, 0x42] [0x41] Mcu.zero true true
        (by decide)
    exact ⟨s1, h1, by rw [h2, h3]; rfl⟩⟩

/-- C6: for every byte `cmd`, `lcd_write_cmd` performs exactly five actions in
this order: a store to the data/command port that makes the data/command bit
0, a store to the chip-select port that makes the chip-select bit 0, the
transfer of `cmd`, a store to the chip-select port that makes the chip-select
bit 1, and a delay of 25 microseconds. -/
theorem lcd_write_cmd_events (cmd : Nat) (s : Mcu) :
    cmd ≤ 0xFF →
    emitted s (lcd_write_cmd cmd s)
      = [Event.write DATA_CMD_PORT (s.regs DATA_CMD_PORT &&& 0xFE),
         Event.write CS_PORT (s.regs CS_PORT &&& 0xFE),
         Event.spi cmd,
         Event.write CS_PORT (s.regs CS_PORT &&& 0xFE ||| 1),
         Event.delay_us 25]
    ∧ (s.regs DATA_CMD_PORT &&& 0xFE).testBit DATA_CMD_PIN = false
    ∧ (s.regs CS_PORT &&& 0xFE).testBit CS_PIN = false
    ∧ (s.regs CS_PORT &&& 0xFE ||| 1).testBit CS_PIN = true := by
  intro _
  refine ⟨emitted_of_append (lcd_write_cmd_trace cmd s), ?_, ?_, ?_⟩ <;>
    simp [DATA_CMD_PIN, CS_PIN]

theorem lcd_write_cmd_events_witness :
    0xAF ≤ 0xFF ∧
    emitted Mcu.zero (lcd_write_cmd 0xAF Mcu.zero)
      = [Event.write Reg.PORTA 0, Event.write Reg.PORTC 0, Event.spi 0xAF,
         Event.write Reg.PORTC 1, Event.delay_us 25] :=
  ⟨by decide, (lcd_write_cmd_events 0xAF Mcu.zero (by decide)).1⟩

/-- C7: for every byte `data`, `lcd_write_data` performs exactly four actions
in this order: a store to the data/command port that makes the data/command
bit 1, a store to the chip-select port that makes the chip-select bit 0, the
transfer of `data`, and a store to the chip-select port that makes the
chip-select bit 1.  None of its actions is a delay. -/
theorem lcd_write_data_events (data : Nat) (s : Mcu) :
    data ≤ 0xFF →
    emitted s (lcd_write_data data s)
      = [Event.write DATA_CMD_PORT (s.regs DATA_CMD_PORT ||| 1),
         Event.write CS_PORT (s.regs CS_PORT &&& 0xFE),
         Event.spi data,
         Event.write CS_PORT (s.regs CS_PORT &&& 0xFE ||| 1)]
    ∧ (s.regs DATA_CMD_PORT ||| 1).testBit DATA_CMD_PIN = true
    ∧ (s.regs CS_PORT &&& 0xFE).testBit CS_PIN = false
    ∧ (s.regs CS_PORT &&& 0xFE ||| 1).testBit CS_PIN = true
    ∧ ∀ e ∈ emitted s (lcd_write_data data s),
        ∀ n, e ≠ Event.delay_us n ∧ e ≠ Event.delay_ms n := by
  intro _
  have h := emitted_of_append (lcd_write_data_trace data s)
  refine ⟨h, ?_, ?_, ?_, ?_⟩
  · simp [DATA_CMD_PIN]
  · simp [CS_PIN]
  · simp [CS_PIN]
  · intro e he n
    rw [h] at he
    simp only [List.mem_cons, List.mem_singleton, List.not_mem_nil, or_false] at he
    rcases he with rfl | rfl | rfl | rfl <;> exact ⟨by simp, by simp⟩

theorem lcd_write_data_events_witness :
    0x3C ≤ 0xFF ∧
    emitted Mcu.zero (lcd_write_data 0x3C Mcu.zero)
      = [Event.write Reg.PORTA 1, Event.write Reg.PORTC 0, Event.spi 0x3C,
         Event.write Reg.PORTC 1] :=
  ⟨by decide, (lcd_write_data_events 0x3C Mcu.zero (by decide)).1⟩

/-- C8: in the actions of each driver operation (`lcd_init`, `lcd_set_cursor`,
`lcd_clear`, `lcd_print_char`, `lcd_print_str`, whatever the arguments and the
state before), every transfer of a command byte is followed by a delay of 25
microseconds before the next transfer and before the operation ends. -/
theorem command_settle_delay (Char_Table : List (List Nat))
    (page column ascii_char fuel : Nat) (print_str : List Nat) (s : Mcu) (a0 : Bool) :
    settled a0 (emitted s (lcd_init s)) = true
    ∧ settled a0 (emitted s (lcd_set_cursor page column s)) = true
    ∧ (∀ s1, lcd_clear fuel s = some s1 → settled a0 (emitted s s1) = true)
    ∧ (∀ s1, lcd_print_char Char_Table ascii_char s = some s1 →
        settled a0 (emitted s s1) = true)
    ∧ (∀ s1, lcd_print_str Char_Table page column print_str s = some s1 →
        settled a0 (emitted s s1) = true) := by
  refine ⟨(runs_init s).settled a0, (runs_set_cursor page column s).settled a0, ?_, ?_, ?_⟩
  · intro s1 h
    obtain ⟨L, hL⟩ := runs_of_clear_pages _ _ _ _ _ _ h
    exact hL.settled a0
  · intro s1 h
    obtain ⟨L, hL⟩ := runs_of_print_char _ _ _ _ h
    exact hL.settled a0
  · intro s1 h
    obtain ⟨L, hL⟩ := runs_of_print_chars _ _ _ _ h
    exact ((runs_set_cursor page column s).trans hL).settled a0

theorem command_settle_delay_witness :
    (lcd_clear 138 Mcu.zero = some (clearPagesFrom 128 9 0 Mcu.zero)
      ∧ settled true (emitted Mcu.zero (clearPagesFrom 128 9 0 Mcu.zero)) = true)
    ∧ (lcd_print_char testTable 0x41 Mcu.zero
          = some (sendData (glyphBytes testTable 0x41) Mcu.zero)
      ∧ settled true (emitted Mcu.zero
          (sendData (glyphBytes testTable 0x41) Mcu.zero)) = true)
    ∧ (lcd_print_str testTable 7 125 [0x41, 0x42, 0] Mcu.zero
          = some (sendData ([0x41, 0x42].flatMap (glyphBytes testTable))
              (lcd_set_cursor 7 125 Mcu.zero))
      ∧ settled true (emitted Mcu.zero
          (sendData ([0x41, 0x42].flatMap (glyphBytes testTable))
            (lcd_set_cursor 7 125 Mcu.zero))) = true) :=
  have hclear : lcd_clear 138 Mcu.zero = some (clearPagesFrom 128 9 0 Mcu.zero) :=
    lcd_clear_pages_eq 8 128 (by decide) (by decide) 9 138 0 Mcu.zero (by decide)
      (by decide)
  have h := command_settle_delay testTable 7 125 0x41 138 [0x41, 0x42, 0] Mcu.zero true
  ⟨⟨hclear, h.2.2.1 _ hclear⟩, ⟨rfl, h.2.2.2.1 _ rfl⟩, ⟨rfl, h.2.2.2.2 _ rfl⟩⟩

/-- C9: a page outside [0,15] is not rejected but cut to its low nibble: for
every byte `page` and every byte `column`, `lcd_set_cursor page column`
transfers the same three command bytes as `lcd_set_cursor (page & 0x0F) column`,
and the first of them, the page command, lies in [0xB0, 0xBF]. -/
theorem lcd_set_cursor_page_nibble (page column : Nat) (s : Mcu) (a0 cs : Bool) :
    page ≤ 0xFF → column ≤ 0xFF →
    busBytes a0 cs (emitted s (lcd_set_cursor page column s))
      = busBytes a0 cs (emitted s (lcd_set_cursor (page &&& 0x0F) column s))
    ∧ ∃ b1 b2 b3,
        busBytes a0 cs (emitted s (lcd_set_cursor page column s))
          = [Xfer.cmd b1, Xfer.cmd b2, Xfer.cmd b3]
        ∧ 0xB0 ≤ b1 ∧ b1 ≤ 0xBF := by
  intro _ _
  have h1 := (runs_set_cursor page column s).bus a0 cs
  have h2 := (runs_set_cursor (page &&& 0x0F) column s).bus a0 cs
  have hm : page &&& 0x0F &&& 0x0F = page &&& 0x0F := by
    simp [Nat.land_assoc]
  rw [hm] at h2
  refine ⟨by rw [h1, h2], _, _, _, h1, page_byte_range page⟩

theorem lcd_set_cursor_page_nibble_witness :
    0xF7 ≤ 0xFF ∧ 0x7D ≤ 0xFF
    ∧ busBytes true true (emitted Mcu.zero (lcd_set_cursor 0xF7 0x7D Mcu.zero))
        = busBytes true true (emitted Mcu.zero (lcd_set_cursor 0x07 0x7D Mcu.zero)) :=
  ⟨by decide, by decide,
    (lcd_set_cursor_page_nibble 0xF7 0x7D Mcu.zero true true (by decide) (by decide)).1⟩

/-- C10: `lcd_print_str` does not check that the text fits on the line and
neither fails nor stops early when it does not.  For page 7, column 125 and
the text "AB" (125 + 6 * 2 > 128) it returns and transfers the command bytes
0xB7, 0x17, 0x0D followed by all 12 glyph bytes of 'A' and 'B'.  For every
page, every column and every text of N characters in the range of the glyph
table it returns and transfers exactly 6 * N data bytes. -/
theorem lcd_print_str_past_last_column (Char_Table : List (List Nat))
    (page column : Nat) (chars rest : List Nat) (s : Mcu) (a0 cs : Bool) :
    (∀ c ∈ [0x41, 0x42],
      0x20 ≤ c ∧ c ≤ 0xFF ∧ 6 ≤ (Char_Table.getD (c - 0x20) []).length) →
    (∀ c ∈ chars, 0x20 ≤ c ∧ c ≤ 0xFF ∧ 6 ≤ (Char_Table.getD (c - 0x20) []).length) →
    (LCD_TOTAL_COLUMNS < 125 + 6 * [0x41, 0x42].length
      ∧ ∃ s1, lcd_print_str Char_Table 7 125 [0x41, 0x42, 0] s = some s1
        ∧ busBytes a0 cs (emitted s s1)
            = [Xfer.cmd 0xB7, Xfer.cmd 0x17, Xfer.cmd 0x0D]
              ++ (glyphBytes Char_Table 0x41).map Xfer.data
              ++ (glyphBytes Char_Table 0x42).map Xfer.data
        ∧ (glyphBytes Char_Table 0x41).length = 6
        ∧ (glyphBytes Char_Table 0x42).length = 6)
    ∧ ∃ s1, lcd_print_str Char_Table page column (chars ++ 0 :: rest) s = some s1
        ∧ (busBytes a0 cs (emitted s s1)).countP (fun x => x.a0) = 6 * chars.length := by
  intro hAB h
  refine ⟨⟨by decide, _, lcd_print_str_eq Char_Table 7 125 [0x41, 0x42] [] s hAB, ?_,
    glyphBytes_length _ _ (hAB 0x41 (by simp)).2.2,
    glyphBytes_length _ _ (hAB 0x42 (by simp)).2.2⟩,
    _, lcd_print_str_eq Char_Table page column chars rest s h, ?_⟩
  · rw [(runs_print_str Char_Table 7 125 [0x41, 0x42] s).bus a0 cs]
    simp only [List.flatMap_cons, List.flatMap_nil, List.append_nil, List.append_assoc]
    rfl
  · rw [(runs_print_str Char_Table page column chars s).bus a0 cs, List.countP_append,
      ← glyph_data_length Char_Table chars h]
    have hcmd : List.countP (fun x => x.a0)
        [Xfer.cmd (0xB0 ||| (page &&& 0x0F)),
         Xfer.cmd (0x10 ||| ((column >>> 4) &&& 0x0F)),
         Xfer.cmd (column &&& 0x0F)] = 0 := by
      simp [Xfer.cmd]
    rw [hcmd, Nat.zero_add, List.countP_eq_length]
    intro x hx
    simp only [List.mem_flatMap, List.mem_map] at hx
    obtain ⟨c, _, b, _, rfl⟩ := hx
    rfl

theorem lcd_print_str_past_last_column_witness :
    (∀ c ∈ [0x41, 0x42],
      0x20 ≤ c ∧ c ≤ 0xFF ∧ 6 ≤ (testTable.getD (c - 0x20) []).length)
    ∧ (∀ c ∈ [0x42, 0x41, 0x42],
      0x20 ≤ c ∧ c ≤ 0xFF ∧ 6 ≤ (testTable.getD (c - 0x20) []).length)
    ∧ (∃ s1, lcd_print_str testTable 7 125 [0x41, 0x42, 0] Mcu.zero = some s1
        ∧ busBytes true true (emitted Mcu.zero s1)
            = [Xfer.cmd 0xB7, Xfer.cmd 0x17, Xfer.cmd 0x0D,
               Xfer.data 0x7C, Xfer.data 0x12, Xfer.data 0x11, Xfer.data 0x12,
               Xfer.data 0x7C, Xfer.data 0x00,
               Xfer.data 0x7F, Xfer.data 0x49, Xfer.data 0x49, Xfer.data 0x49,
               Xfer.data 0x36, Xfer.data 0x00])
    ∧ ∃ s1, lcd_print_str testTable 3 120 [0x42, 0x41, 0x42, 0, 0x41] Mcu.zero = some s1
        ∧ (busBytes true true (emitted Mcu.zero s1)).countP (fun x => x.a0) = 18 := by
  have h := lcd_print_str_past_last_column testTable 3 120 [0x42, 0x41, 0x42] [0x41]
    Mcu.zero true true (by decide) (by decide)
  obtain ⟨⟨_, s1, h1, h2, _⟩, s2, h3, h4⟩ := h
  exact ⟨by decide, by decide, ⟨s1, h1, by rw [h2]; rfl⟩, s2, h3, h4⟩

theorem clear_bytes_length (C : Nat) (g : Nat → Nat) :
    ∀ (n page : Nat),
      ((List.range' page n).flatMap (fun p =>
          [Xfer.cmd (g p), Xfer.cmd 0x10, Xfer.cmd 0x00]
            ++ List.replicate C (Xfer.data 0x00))).length = n * 3 + n * C := by
  intro n
  induction n with
  | zero => intro page; simp
  | succ n ih =>
    intro page
    simp only [List.range'_succ, List.flatMap_cons, List.length_append, ih (page + 1),
      List.length_cons, List.length_nil, List.length_replicate]
    ring

/-! ## Further properties of the driver -/

/-- C11: `lcd_clear` does not depend on what happened before.  From any state,
two calls in a row both return, the bus output of the second call (bytes with
their data/command and chip-select levels) equals that of the first whatever
the line levels were in between, and the output of the two calls together is
the output of one call repeated twice. -/
theorem lcd_clear_twice (fuel : Nat) (s : Mcu) (a0 cs : Bool) :
    138 ≤ fuel →
    ∃ s1 s2, lcd_clear fuel s = some s1 ∧ lcd_clear fuel s1 = some s2
      ∧ (∀ b0 b1, busBytes b0 b1 (emitted s1 s2) = busBytes a0 cs (emitted s s1))
      ∧ busBytes a0 cs (emitted s s2)
          = busBytes a0 cs (emitted s s1) ++ busBytes a0 cs (emitted s s1)
      ∧ (busBytes a0 cs (emitted s s1)).length = 9 * 3 + 9 * 128 := by
  intro hfuel
  have hrun : ∀ t : Mcu, lcd_clear fuel t = some (clearPagesFrom 128 9 0 t) := fun t =>
    lcd_clear_pages_eq 8 128 (by decide) (by decide) 9 fuel 0 t (by decide) (by omega)
  have r1 := runs_clearPagesFrom 128 9 0 s
  have r2 := runs_clearPagesFrom 128 9 0 (clearPagesFrom 128 9 0 s)
  refine ⟨_, _, hrun s, hrun _, ?_, ?_, ?_⟩
  · intro b0 b1
    rw [r2.bus b0 b1, r1.bus a0 cs]
  · rw [(r1.trans r2).bus a0 cs, r1.bus a0 cs]
  · rw [r1.bus a0 cs]
    exact clear_bytes_length 128 (fun p => 0xB0 ||| (p &&& 0x0F)) 9 0

theorem lcd_clear_twice_witness :
    138 ≤ 200 ∧
    ∃ s1 s2, lcd_clear 200 Mcu.zero = some s1 ∧ lcd_clear 200 s1 = some s2
      ∧ (∀ b0 b1, busBytes b0 b1 (emitted s1 s2)
          = busBytes true true (emitted Mcu.zero s1))
      ∧ busBytes true true (emitted Mcu.zero s2)
          = busBytes true true (emitted Mcu.zero s1)
            ++ busBytes true true (emitted Mcu.zero s1)
      ∧ (busBytes true true (emitted Mcu.zero s1)).length = 9 * 3 + 9 * 128 :=
  ⟨by decide, lcd_clear_twice 200 Mcu.zero true true (by decide)⟩

/-! ## Bits of a byte -/

theorem testBit_byte_high (m i : Nat) (hm : m < 256) (hi : 8 ≤ i) :
    m.testBit i = false := by
  apply Nat.testBit_lt_two_pow
  calc m < 2 ^ 8 := hm
    _ ≤ 2 ^ i := Nat.pow_le_pow_right (by decide) hi

theorem testBit_one_ne (i : Nat) (hi : i ≠ 0) : Nat.testBit 1 i = false := by
  rcases Nat.lt_or_ge i 8 with h | h
  · interval_cases i <;> first | rfl | exact absurd rfl hi
  · exact testBit_byte_high 1 i (by decide) h

theorem testBit_two_ne (i : Nat) (hi : i ≠ 1) : Nat.testBit 2 i = false := by
  rcases Nat.lt_or_ge i 8 with h | h
  · interval_cases i <;> first | rfl | exact absurd rfl hi
  · exact testBit_byte_high 2 i (by decide) h

theorem testBit_0xFE (i : Nat) (h7 : i ≤ 7) (hi : i ≠ 0) : Nat.testBit 0xFE i = true := by
  interval_cases i <;> first | rfl | exact absurd rfl hi

/-! ## The start of the initialisation -/

theorem runs_init_after_first (s4 : Mcu) : ∃ ev,
    (lcd_write_data 0xFF (lcd_write_data 0xFF (lcd_write_data 0xFF (lcd_write_data 0xFF
      (lcd_write_data 0xFF (lcd_write_cmd 0x00 (lcd_write_cmd 0x10 (lcd_write_cmd 0xB0
      (lcd_write_cmd 0x40 (lcd_write_cmd 0xA4 (lcd_write_cmd 0xAF (lcd_write_cmd 0x07
      (lcd_write_cmd 0x81 (lcd_write_cmd 0x26 (lcd_write_cmd 0x2F (lcd_write_cmd 0xA3
      (lcd_write_cmd 0xC8 (lcd_write_cmd 0xAE s4)))))))))))))))))).trace
      = s4.trace ++ ev := by
  have h := (((((((((((((((((runs_write_cmd 0xAE s4).trans
    (runs_write_cmd 0xC8 _)).trans (runs_write_cmd 0xA3 _)).trans
    (runs_write_cmd 0x2F _)).trans (runs_write_cmd 0x26 _)).trans
    (runs_write_cmd 0x81 _)).trans (runs_write_cmd 0x07 _)).trans
    (runs_write_cmd 0xAF _)).trans (runs_write_cmd 0xA4 _)).trans
    (runs_write_cmd 0x40 _)).trans (runs_write_cmd 0xB0 _)).trans
    (runs_write_cmd 0x10 _)).trans (runs_write_cmd 0x00 _)).trans
    (runs_write_data 0xFF _)).trans (runs_write_data 0xFF _)).trans
    (runs_write_data 0xFF _)).trans (runs_write_data 0xFF _)).trans
    (runs_write_data 0xFF _)
  obtain ⟨ev, hev, _⟩ := h
  exact ⟨ev, hev⟩

/-- C12: the first actions of `lcd_init` are, in this order, a wait of 10 ms,
one store to the reset port that sets the reset bit and changes no other bit,
and a wait of 10 ms.  Only then does the first command start: data/command
low, chip-select low, transfer of 0xA0.  None of the three first actions is a
bus transfer, and 0xA0 is the first byte on the bus. -/
theorem lcd_init_begins (s : Mcu) :
    ∃ rest,
      emitted s (lcd_init s)
        = [Event.delay_ms 10,
           Event.write RST_PORT (s.regs RST_PORT ||| 1 <<< RST_PIN),
           Event.delay_ms 10]
          ++ [Event.write DATA_CMD_PORT ((s.regs RST_PORT ||| 1 <<< RST_PIN) &&& 0xFE),
              Event.write CS_PORT (s.regs CS_PORT &&& 0xFE),
              Event.spi 0xA0]
          ++ rest
      ∧ (s.regs RST_PORT ||| 1 <<< RST_PIN).testBit RST_PIN = true
      ∧ (∀ i, i ≠ RST_PIN →
          (s.regs RST_PORT ||| 1 <<< RST_PIN).testBit i = (s.regs RST_PORT).testBit i)
      ∧ (∀ a0 cs, busBytes a0 cs
          [Event.delay_ms 10,
           Event.write RST_PORT (s.regs RST_PORT ||| 1 <<< RST_PIN),
           Event.delay_ms 10] = [])
      ∧ (∀ a0 cs, (busBytes a0 cs (emitted s (lcd_init s))).head? = some (Xfer.cmd 0xA0)) := by
  obtain ⟨ev, hev⟩ := runs_init_after_first
    (lcd_write_cmd 0xA0 (_delay_ms 10 (reg_or RST_PORT (1 <<< RST_PIN) (_delay_ms 10 s))))
  have hfirst := lcd_write_cmd_trace 0xA0
    (_delay_ms 10 (reg_or RST_PORT (1 <<< RST_PIN) (_delay_ms 10 s)))
  have htr : (lcd_init s).trace = s.trace ++
      ([Event.delay_ms 10,
        Event.write RST_PORT (s.regs RST_PORT ||| 1 <<< RST_PIN),
        Event.delay_ms 10]
        ++ [Event.write DATA_CMD_PORT ((s.regs RST_PORT ||| 1 <<< RST_PIN) &&& 0xFE),
            Event.write CS_PORT (s.regs CS_PORT &&& 0xFE),
            Event.spi 0xA0]
        ++ ([Event.write CS_PORT (s.regs CS_PORT &&& 0xFE ||| 1), Event.delay_us 25]
            ++ ev)) := by
    unfold lcd_init
    simp only
    rw [hev, hfirst]
    simp [_delay_ms, reg_or, Mcu.write, Mcu.emit, RST_PORT, RST_PIN, DATA_CMD_PORT, CS_PORT]
  refine ⟨_, emitted_of_append htr, ?_, ?_, ?_, ?_⟩
  · show (s.regs RST_PORT ||| 2).testBit 1 = true
    rw [Nat.testBit_or]
    exact Bool.or_eq_true_iff.mpr (Or.inr (by decide))
  · intro i hi
    show (s.regs RST_PORT ||| 2).testBit i = (s.regs RST_PORT).testBit i
    rw [Nat.testBit_or, testBit_two_ne i hi, Bool.or_false]
  · intro a0 cs
    simp [busBytes]
  · intro a0 cs
    rw [(runs_init s).bus a0 cs]
    rfl

/-! ## Bits of the masks of `lcd_spi_init` -/

theorem testBit_0x03_ne (i : Nat) (h0 : i ≠ 0) (h1 : i ≠ 1) : Nat.testBit 0x03 i = false := by
  rcases Nat.lt_or_ge i 8 with h | h
  · interval_cases i <;> first | rfl | omega
  · exact testBit_byte_high 0x03 i (by decide) h

theorem testBit_0x07_ne (i : Nat) (h0 : i ≠ 0) (h1 : i ≠ 1) (h2 : i ≠ 2) :
    Nat.testBit 0x07 i = false := by
  rcases Nat.lt_or_ge i 8 with h | h
  · interval_cases i <;> first | rfl | omega
  · exact testBit_byte_high 0x07 i (by decide) h

theorem testBit_0x5C_ne (i : Nat) (h2 : i ≠ 2) (h3 : i ≠ 3) (h4 : i ≠ 4) (h6 : i ≠ 6) :
    Nat.testBit 0x5C i = false := by
  rcases Nat.lt_or_ge i 8 with h | h
  · interval_cases i <;> first | rfl | omega
  · exact testBit_byte_high 0x5C i (by decide) h

theorem testBit_or_of_false (x m i : Nat) (h : m.testBit i = false) :
    (x ||| m).testBit i = x.testBit i := by
  rw [Nat.testBit_or, h, Bool.or_false]

theorem testBit_or_of_true (x m i : Nat) (h : m.testBit i = true) :
    (x ||| m).testBit i = true := by
  rw [Nat.testBit_or, h, Bool.or_true]

/-! ## Bus initialisation -/

theorem lcd_spi_init_regs (s : Mcu) :
    (lcd_spi_init s).regs Reg.DDRA = s.regs Reg.DDRA ||| 0x03
    ∧ (lcd_spi_init s).regs Reg.DDRC = s.regs Reg.DDRC ||| 0x01
    ∧ (lcd_spi_init s).regs Reg.DDRB = s.regs Reg.DDRB ||| 0x07
    ∧ (lcd_spi_init s).regs Reg.SPCR = s.regs Reg.SPCR ||| 0x5C
    ∧ (lcd_spi_init s).regs Reg.SPSR = 0x00
    ∧ (lcd_spi_init s).regs Reg.PORTA = s.regs Reg.PORTA
    ∧ (lcd_spi_init s).regs Reg.PORTC = s.regs Reg.PORTC := by
  simp [lcd_spi_init, reg_or, reg_assign, Mcu.write, Function.update, DATA_CMD_PIN,
    RST_PIN, CS_PIN, LCD_SS, LCD_SCK, LCD_MOSI, SPE, MSTR, CPOL, CPHA]

/-- C13: from every register state, after `lcd_spi_init` the direction bits of
the data/command pin and the reset pin (DDRA bits 0 and 1), of the chip-select
pin (DDRC bit 0) and of SS, SCK and MOSI (DDRB bits 0, 1, 2) are 1, the bits
SPE, MSTR, CPOL and CPHA of SPCR are 1, SPSR is 0x00, and every other bit of
DDRA, DDRB, DDRC and SPCR has the value it had before. -/
theorem lcd_spi_init_effect (s : Mcu) :
    ((lcd_spi_init s).regs Reg.DDRA).testBit DATA_CMD_PIN = true
    ∧ ((lcd_spi_init s).regs Reg.DDRA).testBit RST_PIN = true
    ∧ ((lcd_spi_init s).regs Reg.DDRC).testBit CS_PIN = true
    ∧ ((lcd_spi_init s).regs Reg.DDRB).testBit LCD_SS = true
    ∧ ((lcd_spi_init s).regs Reg.DDRB).testBit LCD_SCK = true
    ∧ ((lcd_spi_init s).regs Reg.DDRB).testBit LCD_MOSI = true
    ∧ ((lcd_spi_init s).regs Reg.SPCR).testBit SPE = true
    ∧ ((lcd_spi_init s).regs Reg.SPCR).testBit MSTR = true
    ∧ ((lcd_spi_init s).regs Reg.SPCR).testBit CPOL = true
    ∧ ((lcd_spi_init s).regs Reg.SPCR).testBit CPHA = true
    ∧ (lcd_spi_init s).regs Reg.SPSR = 0x00
    ∧ (∀ i, i ≠ DATA_CMD_PIN → i ≠ RST_PIN →
        ((lcd_spi_init s).regs Reg.DDRA).testBit i = (s.regs Reg.DDRA).testBit i)
    ∧ (∀ i, i ≠ CS_PIN →
        ((lcd_spi_init s).regs Reg.DDRC).testBit i = (s.regs Reg.DDRC).testBit i)
    ∧ (∀ i, i ≠ LCD_SS → i ≠ LCD_SCK → i ≠ LCD_MOSI →
        ((lcd_spi_init s).regs Reg.DDRB).testBit i = (s.regs Reg.DDRB).testBit i)
    ∧ (∀ i, i ≠ SPE → i ≠ MSTR → i ≠ CPOL → i ≠ CPHA →
        ((lcd_spi_init s).regs Reg.SPCR).testBit i = (s.regs Reg.SPCR).testBit i) := by
  obtain ⟨hA, hC, hB, hS, hP, _, _⟩ := lcd_spi_init_regs s
  rw [hA, hC, hB, hS, hP]
  refine ⟨?_, ?_, ?_, ?_, ?_, ?_, ?_, ?_, ?_, ?_, rfl, ?_, ?_, ?_, ?_⟩
  · exact testBit_or_of_true _ _ _ (by decide)
  · exact testBit_or_of_true _ _ _ (by decide)
  · exact testBit_or_of_true _ _ _ (by decide)
  · exact testBit_or_of_true _ _ _ (by decide)
  · exact testBit_or_of_true _ _ _ (by decide)
  · exact testBit_or_of_true _ _ _ (by decide)
  · exact testBit_or_of_true _ _ _ (by decide)
  · exact testBit_or_of_true _ _ _ (by decide)
  · exact testBit_or_of_true _ _ _ (by decide)
  · exact testBit_or_of_true _ _ _ (by decide)
  · intro i h0 h1
    exact testBit_or_of_false _ _ _ (testBit_0x03_ne i h0 h1)
  · intro i h0
    exact testBit_or_of_false _ _ _ (testBit_one_ne i h0)
  · intro i h0 h1 h2
    exact testBit_or_of_false _ _ _ (testBit_0x07_ne i h0 h1 h2)
  · intro i h6 h4 h3 h2
    exact testBit_or_of_false _ _ _ (testBit_0x5C_ne i h2 h3 h4 h6)

/-- C14: `lcd_spi_init` does not touch the clock-rate bits SPR1 and SPR0 of
SPCR.  From the reset value SPCR = 0x00 it leaves SPCR = 0x5C with SPR1 = 0
and SPR0 = 0 (and SPI2X = 0, SPSR being 0x00): the setting fosc/4, not the
setting fosc/16 (SPR0 = 1) that the comment in the function announces. -/
theorem lcd_spi_init_clock_rate (s : Mcu) :
    ((lcd_spi_init s).regs Reg.SPCR).testBit SPR1 = (s.regs Reg.SPCR).testBit SPR1
    ∧ ((lcd_spi_init s).regs Reg.SPCR).testBit SPR0 = (s.regs Reg.SPCR).testBit SPR0
    ∧ (lcd_spi_init Mcu.zero).regs Reg.SPCR = 0x5C
    ∧ ((lcd_spi_init Mcu.zero).regs Reg.SPCR).testBit SPR1 = false
    ∧ ((lcd_spi_init Mcu.zero).regs Reg.SPCR).testBit SPR0 = false
    ∧ (lcd_spi_init Mcu.zero).regs Reg.SPSR = 0x00 := by
  have hS := (lcd_spi_init_regs s).2.2.2.1
  have hZ := (lcd_spi_init_regs Mcu.zero).2.2.2.1
  have hP := (lcd_spi_init_regs Mcu.zero).2.2.2.2.1
  have hz : Mcu.zero.regs Reg.SPCR = 0 := rfl
  rw [hS, hZ, hP, hz]
  refine ⟨?_, ?_, by decide, by decide, by decide, rfl⟩
  · exact testBit_or_of_false _ _ _ (by decide)
  · exact testBit_or_of_false _ _ _ (by decide)

/-! ## Glyph index and column encoding -/

theorem lcd_print_char_at_index (tbl : List (List Nat)) (ascii_char : Nat) (row : List Nat)
    (s : Mcu) (hrow : tbl[glyph_index ascii_char]? = some row) (h6 : 6 ≤ row.length) :
    lcd_print_char tbl ascii_char s = some (sendData (row.take 6) s) := by
  unfold lcd_print_char
  simp only [hrow]
  rw [lcd_print_glyph_eq row 6 0 s (by omega)]
  simp only [List.drop_zero]

set_option maxRecDepth 100000 in
theorem column_bytes_decode :
    ∀ column, column < 256 →
      0x10 ≤ (0x10 ||| ((column >>> 4) &&& 0x0F))
      ∧ (0x10 ||| ((column >>> 4) &&& 0x0F)) ≤ 0x1F
      ∧ (column &&& 0x0F) ≤ 0x0F
      ∧ (((0x10 ||| ((column >>> 4) &&& 0x0F)) &&& 0x0F) <<< 4) ||| (column &&& 0x0F)
          = column := by
  decide

/-- C15: the glyph index computed by `lcd_print_char` is the 8-bit value of
`ascii_char - 0x20`, that is `(ascii_char - 0x20) mod 256`, and it is used
without a bounds check.  For every byte: the index is in [0x00, 0x5F] exactly
when the byte is in [0x20, 0x7F]; below 0x20 the index wraps to
`ascii_char + 0xE0`, in [0xE0, 0xFF]; from 0x80 on it is in [0x60, 0xDF].
Whatever the byte, the table entry at that index is what gets sent. -/
theorem glyph_index_ranges (ascii_char : Nat) :
    ascii_char ≤ 0xFF →
    (glyph_index ascii_char : Int) = ((ascii_char : Int) - 0x20) % 256
    ∧ (glyph_index ascii_char ≤ 0x5F ↔ 0x20 ≤ ascii_char ∧ ascii_char ≤ 0x7F)
    ∧ (ascii_char < 0x20 →
        glyph_index ascii_char = ascii_char + 0xE0
        ∧ 0xE0 ≤ glyph_index ascii_char ∧ glyph_index ascii_char ≤ 0xFF)
    ∧ (0x80 ≤ ascii_char →
        0x60 ≤ glyph_index ascii_char ∧ glyph_index ascii_char ≤ 0xDF)
    ∧ (∀ (Char_Table : List (List Nat)) (row : List Nat) (s : Mcu),
        Char_Table[glyph_index ascii_char]? = some row → 6 ≤ row.length →
        lcd_print_char Char_Table ascii_char s = some (sendData (row.take 6) s)) := by
  intro h
  refine ⟨?_, ?_, ?_, ?_, ?_⟩
  · unfold glyph_index
    omega
  · unfold glyph_index
    omega
  · intro h1
    unfold glyph_index
    omega
  · intro h1
    unfold glyph_index
    omega
  · intro tbl row s hrow h6
    exact lcd_print_char_at_index tbl ascii_char row s hrow h6

theorem glyph_index_ranges_witness :
    0x10 ≤ 0xFF
    ∧ glyph_index 0x10 = 0xF0
    ∧ lcd_print_char (List.replicate 0x100 [1, 2, 3, 4, 5, 6]) 0x10 Mcu.zero
        = some (sendData [1, 2, 3, 4, 5, 6] Mcu.zero) :=
  ⟨by decide, ((glyph_index_ranges 0x10 (by decide)).2.2.1 (by decide)).1,
    (glyph_index_ranges 0x10 (by decide)).2.2.2.2
      (List.replicate 0x100 [1, 2, 3, 4, 5, 6]) [1, 2, 3, 4, 5, 6] Mcu.zero
      (by rw [List.getElem?_replicate, if_pos (by decide)]) (by decide)⟩

/-- C16: `lcd_set_cursor` encodes the column without loss.  For every byte
`column` the second command byte b2 is in [0x10, 0x1F], the third b3 is in
[0x00, 0x0F], and `((b2 & 0x0F) << 4) | b3` is the column; so calls with
different columns transfer different byte triples. -/
theorem lcd_set_cursor_column_lossless (page column column2 : Nat) (s : Mcu)
    (a0 cs : Bool) :
    column ≤ 0xFF → column2 ≤ 0xFF →
    (∃ b1 b2 b3,
      busBytes a0 cs (emitted s (lcd_set_cursor page column s))
        = [Xfer.cmd b1, Xfer.cmd b2, Xfer.cmd b3]
      ∧ 0x10 ≤ b2 ∧ b2 ≤ 0x1F ∧ b3 ≤ 0x0F
      ∧ ((b2 &&& 0x0F) <<< 4) ||| b3 = column)
    ∧ (column ≠ column2 →
        busBytes a0 cs (emitted s (lcd_set_cursor page column s))
          ≠ busBytes a0 cs (emitted s (lcd_set_cursor page column2 s))) := by
  intro h h2
  have hb := (runs_set_cursor page column s).bus a0 cs
  have hb2 := (runs_set_cursor page column2 s).bus a0 cs
  have hd := column_bytes_decode column (by omega)
  have hd2 := column_bytes_decode column2 (by omega)
  refine ⟨⟨_, _, _, hb, hd⟩, ?_⟩
  intro hne heq
  rw [hb, hb2] at heq
  simp only [Xfer.cmd, List.cons.injEq, Xfer.mk.injEq, true_and, and_true] at heq
  obtain ⟨e2, e3⟩ := heq
  apply hne
  rw [← hd.2.2.2, ← hd2.2.2.2, e2, e3]

theorem lcd_set_cursor_column_lossless_witness :
    0x7D ≤ 0xFF ∧ 0x7E ≤ 0xFF
    ∧ busBytes true true (emitted Mcu.zero (lcd_set_cursor 7 0x7D Mcu.zero))
        ≠ busBytes true true (emitted Mcu.zero (lcd_set_cursor 7 0x7E Mcu.zero)) :=
  ⟨by decide, by decide,
    (lcd_set_cursor_column_lossless 7 0x7D 0x7E Mcu.zero true true (by decide)
      (by decide)).2 (by decide)⟩

/-! ## Relations kept by every operation -/

theorem StepClosed.set_cursor {R : Mcu → Mcu → Prop} (hR : StepClosed R)
    (page column : Nat) (s : Mcu) : R s (lcd_set_cursor page column s) :=
  hR.2.1 _ _ _ (hR.2.1 _ _ _ (hR.2.2.1 _ s) (hR.2.2.1 _ _)) (hR.2.2.1 _ _)

theorem StepClosed.clear_columns {R : Mcu → Mcu → Prop} (hR : StepClosed R) (C : Nat) :
    ∀ (fuel i : Nat) (s s1 : Mcu), lcd_clear_columns C fuel i s = some s1 → R s s1 := by
  intro fuel
  induction fuel with
  | zero => intro i s s1 h; simp [lcd_clear_columns] at h
  | succ f ih =>
    intro i s s1 h
    rw [lcd_clear_columns] at h
    split at h
    · exact hR.2.1 _ _ _ (hR.2.2.2 0x00 s) (ih _ _ _ h)
    · cases h
      exact hR.1 s

theorem StepClosed.clear_pages {R : Mcu → Mcu → Prop} (hR : StepClosed R) (P C : Nat) :
    ∀ (fuel page : Nat) (s s1 : Mcu), lcd_clear_pages P C fuel page s = some s1 → R s s1 := by
  intro fuel
  induction fuel with
  | zero => intro page s s1 h; simp [lcd_clear_pages] at h
  | succ f ih =>
    intro page s s1 h
    rw [lcd_clear_pages] at h
    split at h
    · split at h
      · cases h
      · rename_i s2 hcols
        exact hR.2.1 _ _ _
          (hR.2.1 _ _ _ (hR.set_cursor page 0x00 s) (hR.clear_columns C _ _ _ _ hcols))
          (ih _ _ _ h)
    · cases h
      exact hR.1 s

theorem StepClosed.print_glyph {R : Mcu → Mcu → Prop} (hR : StepClosed R) (row : List Nat) :
    ∀ (n i : Nat) (s s1 : Mcu), lcd_print_glyph row n i s = some s1 → R s s1 := by
  intro n
  induction n with
  | zero =>
    intro i s s1 h
    simp only [lcd_print_glyph, Option.some.injEq] at h
    subst h
    exact hR.1 s
  | succ n ih =>
    intro i s s1 h
    rw [lcd_print_glyph] at h
    split at h
    · cases h
    · rename_i byte _
      exact hR.2.1 _ _ _ (hR.2.2.2 byte s) (ih _ _ _ h)

theorem StepClosed.print_char {R : Mcu → Mcu → Prop} (hR : StepClosed R)
    (tbl : List (List Nat)) (ascii_char : Nat) (s s1 : Mcu)
    (h : lcd_print_char tbl ascii_char s = some s1) : R s s1 := by
  unfold lcd_print_char at h
  simp only at h
  split at h
  · cases h
  · exact hR.print_glyph _ _ _ _ _ h

theorem StepClosed.print_chars {R : Mcu → Mcu → Prop} (hR : StepClosed R)
    (tbl : List (List Nat)) :
    ∀ (text : List Nat) (s s1 : Mcu), lcd_print_chars tbl text s = some s1 → R s s1 := by
  intro text
  induction text with
  | nil => intro s s1 h; simp [lcd_print_chars] at h
  | cons c rest ih =>
    intro s s1 h
    rw [lcd_print_chars] at h
    split at h
    · split at h
      · cases h
      · rename_i s2 hchar
        exact hR.2.1 _ _ _ (hR.print_char tbl c s s2 hchar) (ih _ _ h)
    · cases h
      exact hR.1 s

theorem StepClosed.print_str {R : Mcu → Mcu → Prop} (hR : StepClosed R)
    (tbl : List (List Nat)) (page column : Nat) (text : List Nat) (s s1 : Mcu)
    (h : lcd_print_str tbl page column text s = some s1) : R s s1 :=
  hR.2.1 _ _ _ (hR.set_cursor page column s) (hR.print_chars tbl text _ _ h)

theorem lcd_write_cmd_porta (cmd : Nat) (s : Mcu) :
    (lcd_write_cmd cmd s).regs Reg.PORTA = s.regs Reg.PORTA &&& 0xFE := by
  simp [lcd_write_cmd, reg_and_not, reg_or, SPI_SEND, _delay_us, Mcu.write, Mcu.emit,
    Function.update, DATA_CMD_PORT, CS_PORT, DATA_CMD_PIN, CS_PIN]

theorem lcd_write_data_porta (data : Nat) (s : Mcu) :
    (lcd_write_data data s).regs Reg.PORTA = s.regs Reg.PORTA ||| 1 := by
  simp [lcd_write_data, reg_and_not, reg_or, SPI_SEND, Mcu.write, Mcu.emit,
    Function.update, DATA_CMD_PORT, CS_PORT, DATA_CMD_PIN, CS_PIN]

theorem portKept_stepClosed : StepClosed portKept := by
  refine ⟨fun s i _ _ => rfl, ?_, ?_, ?_⟩
  · intro s s1 s2 h1 h2 i h7 h0
    rw [h2 i h7 h0, h1 i h7 h0]
  · intro cmd s i h7 h0
    show ((lcd_write_cmd cmd s).regs Reg.PORTA).testBit i = (s.regs Reg.PORTA).testBit i
    rw [lcd_write_cmd_porta, Nat.testBit_and, testBit_0xFE i h7 h0, Bool.and_true]
  · intro data s i h7 h0
    show ((lcd_write_data data s).regs Reg.PORTA).testBit i = (s.regs Reg.PORTA).testBit i
    rw [lcd_write_data_porta]
    exact testBit_or_of_false _ _ _ (testBit_one_ne i h0)

theorem StepClosed.init_commands {R : Mcu → Mcu → Prop} (hR : StepClosed R) (s : Mcu) :
    R (_delay_ms 10 (reg_or RST_PORT (1 <<< RST_PIN) (_delay_ms 10 s))) (lcd_init s) := by
  unfold lcd_init
  simp only
  repeat first
    | exact hR.1 _
    | refine hR.2.1 _ _ _ ?_ (hR.2.2.2 _ _)
    | refine hR.2.1 _ _ _ ?_ (hR.2.2.1 _ _)

theorem lcd_init_reset_bit (s : Mcu) :
    ((lcd_init s).regs RST_PORT).testBit RST_PIN = true := by
  have h := portKept_stepClosed.init_commands s 1 (by decide) (by decide)
  have h3 : (_delay_ms 10 (reg_or RST_PORT (1 <<< RST_PIN) (_delay_ms 10 s))).regs
      Reg.PORTA = s.regs Reg.PORTA ||| 2 := by
    simp [_delay_ms, reg_or, Mcu.write, Mcu.emit, Function.update, RST_PORT, RST_PIN]
  show ((lcd_init s).regs Reg.PORTA).testBit 1 = true
  have h' : ((lcd_init s).regs Reg.PORTA).testBit 1
      = ((_delay_ms 10 (reg_or RST_PORT (1 <<< RST_PIN) (_delay_ms 10 s))).regs
          Reg.PORTA).testBit 1 := h
  rw [h', h3]
  exact testBit_or_of_true _ _ _ (by decide)

/-- C17: the data/command pin and the reset pin are bits of the same port
register, and no operation that transfers bytes disturbs the reset bit.  From
every state and for all arguments, `lcd_write_cmd`, `lcd_write_data`,
`lcd_set_cursor`, `lcd_clear`, `lcd_print_char` and `lcd_print_str` leave every
bit of the port other than the data/command bit as it was; the reset bit is 1
after `lcd_init` and is still 1 after any of these operations. -/
theorem port_bits_kept (Char_Table : List (List Nat))
    (cmd data page column ascii_char fuel : Nat) (print_str : List Nat) (s : Mcu) :
    (RST_PORT = DATA_CMD_PORT ∧ RST_PIN ≤ 7 ∧ RST_PIN ≠ DATA_CMD_PIN)
    ∧ portKept s (lcd_write_cmd cmd s)
    ∧ portKept s (lcd_write_data data s)
    ∧ portKept s (lcd_set_cursor page column s)
    ∧ (∀ s1, lcd_clear fuel s = some s1 → portKept s s1)
    ∧ (∀ s1, lcd_print_char Char_Table ascii_char s = some s1 → portKept s s1)
    ∧ (∀ s1, lcd_print_str Char_Table page column print_str s = some s1 → portKept s s1)
    ∧ ((lcd_init s).regs RST_PORT).testBit RST_PIN = true
    ∧ (∀ s1, portKept (lcd_init s) s1 → (s1.regs RST_PORT).testBit RST_PIN = true) := by
  have hR := portKept_stepClosed
  refine ⟨⟨rfl, by decide, by decide⟩, hR.2.2.1 cmd s, hR.2.2.2 data s,
    hR.set_cursor page column s, ?_, ?_, ?_, lcd_init_reset_bit s, ?_⟩
  · intro s1 h
    exact hR.clear_pages _ _ _ _ _ _ h
  · intro s1 h
    exact hR.print_char _ _ _ _ h
  · intro s1 h
    exact hR.print_str _ _ _ _ _ _ h
  · intro s1 h
    have h1 := h 1 (by decide) (by decide)
    have h2 := lcd_init_reset_bit s
    exact h1.trans h2

theorem port_bits_kept_witness :
    lcd_print_str testTable 7 125 [0x41, 0x42, 0] (lcd_init Mcu.zero)
        = some (sendData ([0x41, 0x42].flatMap (glyphBytes testTable))
            (lcd_set_cursor 7 125 (lcd_init Mcu.zero)))
    ∧ ((sendData ([0x41, 0x42].flatMap (glyphBytes testTable))
          (lcd_set_cursor 7 125 (lcd_init Mcu.zero))).regs RST_PORT).testBit RST_PIN
        = true :=
  have hrun : lcd_print_str testTable 7 125 [0x41, 0x42, 0] (lcd_init Mcu.zero)
      = some (sendData ([0x41, 0x42].flatMap (glyphBytes testTable))
          (lcd_set_cursor 7 125 (lcd_init Mcu.zero))) :=
    lcd_print_str_eq testTable 7 125 [0x41, 0x42] [] (lcd_init Mcu.zero) (by decide)
  have h := port_bits_kept testTable 0 0 7 125 0x41 138 [0x41, 0x42, 0] Mcu.zero
  have h2 := port_bits_kept testTable 0 0 7 125 0x41 138 [0x41, 0x42, 0] (lcd_init Mcu.zero)
  ⟨hrun, h.2.2.2.2.2.2.2.2 _ (h2.2.2.2.2.2.2.1 _ hrun)⟩

/-! ## Termination of `lcd_clear` -/

theorem lcd_clear_columns_diverges :
    ∀ (fuel i : Nat) (s : Mcu), lcd_clear_columns 256 fuel i s = none ∨ 256 ≤ i := by
  intro fuel
  induction fuel with
  | zero => intro i s; exact Or.inl rfl
  | succ f ih =>
    intro i s
    by_cases hi : i < 256
    · left
      rw [lcd_clear_columns, if_pos hi]
      rcases ih ((i + 1) % 256) (lcd_write_data 0x00 s) with h | h
      · exact h
      · have := Nat.mod_lt (i + 1) (by decide : 0 < 256)
        omega
    · right
      omega

theorem lcd_clear_pages_diverges (C : Nat) :
    ∀ (fuel page : Nat) (s : Mcu), page ≤ 255 → lcd_clear_pages 255 C fuel page s = none := by
  intro fuel
  induction fuel with
  | zero => intro page s _; rfl
  | succ f ih =>
    intro page s hp
    rw [lcd_clear_pages, if_pos hp]
    split
    · rfl
    · exact ih _ _ (by have := Nat.mod_lt (page + 1) (by decide : 0 < 256); omega)

/-- With 255 pages, or with 256 columns, the 8-bit counters of `lcd_clear` never
leave the range of their loop condition: the function does not return, whatever
the fuel. -/
theorem lcd_clear_with_diverges (PAGES COLUMNS fuel : Nat) (s : Mcu) :
    lcd_clear_with 255 COLUMNS fuel s = none
    ∧ lcd_clear_with PAGES 256 fuel s = none := by
  refine ⟨lcd_clear_pages_diverges COLUMNS fuel 0 s (by decide), ?_⟩
  unfold lcd_clear_with
  cases fuel with
  | zero => rfl
  | succ f =>
    rw [lcd_clear_pages, if_pos (Nat.zero_le _)]
    rcases lcd_clear_columns_diverges f 0 (lcd_set_cursor 0 0x00 s) with h | h
    · rw [h]
    · omega

/-- C18: with 8-bit loop counters, `lcd_clear` returns for every geometry with
at most 254 as page constant and at most 255 as column constant, given fuel for
its loops, and it transfers exactly (PAGES + 1) * COLUMNS data bytes.  In
particular it returns for the shipped constants 8 and 128. -/
theorem lcd_clear_terminates (PAGES COLUMNS fuel : Nat) (s : Mcu) (a0 cs : Bool) :
    PAGES ≤ 254 → COLUMNS ≤ 255 → PAGES + COLUMNS + 2 ≤ fuel →
    (∃ s1, lcd_clear_with PAGES COLUMNS fuel s = some s1
      ∧ (busBytes a0 cs (emitted s s1)).countP (fun x => x.a0) = (PAGES + 1) * COLUMNS)
    ∧ LCD_TOTAL_PAGES ≤ 254 ∧ LCD_TOTAL_COLUMNS ≤ 255
    ∧ ∃ s1, lcd_clear (LCD_TOTAL_PAGES + LCD_TOTAL_COLUMNS + 2) s = some s1
      ∧ (busBytes a0 cs (emitted s s1)).countP (fun x => x.a0)
          = (LCD_TOTAL_PAGES + 1) * LCD_TOTAL_COLUMNS := by
  intro hP hC hfuel
  have key : ∀ P C f, P ≤ 254 → C ≤ 255 → P + C + 2 ≤ f →
      ∃ s1, lcd_clear_with P C f s = some s1
        ∧ (busBytes a0 cs (emitted s s1)).countP (fun x => x.a0) = (P + 1) * C := by
    intro P C f hP hC hf
    refine ⟨_, lcd_clear_pages_eq P C hP hC (P + 1) f 0 s (by omega) (by omega), ?_⟩
    rw [(runs_clearPagesFrom C (P + 1) 0 s).bus a0 cs]
    exact (clear_bytes_count C (fun p => 0xB0 ||| (p &&& 0x0F)) (P + 1) 0).1
  exact ⟨key PAGES COLUMNS fuel hP hC hfuel, by decide, by decide,
    key 8 128 138 (by decide) (by decide) (by decide)⟩

theorem lcd_clear_terminates_witness :
    254 ≤ 254 ∧ 255 ≤ 255 ∧ 254 + 255 + 2 ≤ 511
    ∧ ∃ s1, lcd_clear_with 254 255 511 Mcu.zero = some s1
      ∧ (busBytes true true (emitted Mcu.zero s1)).countP (fun x => x.a0) = 255 * 255 :=
  ⟨by decide, by decide, by decide,
    (lcd_clear_terminates 254 255 511 Mcu.zero true true (by decide) (by decide)
      (by decide)).1⟩

/-! ## The demo -/

theorem text_split (text : List Nat) (h0 : 0 ∈ text) :
    ∃ rest, text = textChars text ++ 0 :: rest := by
  induction text with
  | nil => simp at h0
  | cons c cs ih =>
    by_cases hc : c = 0
    · subst hc
      exact ⟨cs, by simp [textChars]⟩
    · have h0' : 0 ∈ cs := by
        rcases List.mem_cons.mp h0 with h | h
        · exact absurd h.symm hc
        · exact h
      obtain ⟨rest, hrest⟩ := ih h0'
      refine ⟨rest, ?_⟩
      have : textChars (c :: cs) = c :: textChars cs := by
        simp [textChars, List.takeWhile_cons, hc]
      rw [this, List.cons_append, ← hrest]

theorem lcd_print_str_returns (tbl : List (List Nat)) (page column : Nat)
    (text : List Nat) (s : Mcu) (h0 : 0 ∈ text)
    (h : ∀ c ∈ textChars text,
      0x20 ≤ c ∧ c ≤ 0xFF ∧ 6 ≤ (tbl.getD (c - 0x20) []).length) :
    lcd_print_str tbl page column text s
      = some (sendData ((textChars text).flatMap (glyphBytes tbl))
          (lcd_set_cursor page column s)) := by
  obtain ⟨rest, hrest⟩ := text_split text h0
  have := lcd_print_str_eq tbl page column (textChars text) rest s h
  rw [← hrest] at this
  exact this

theorem main_calls (Char_Table : List (List Nat)) (fuel : Nat) (s : Mcu) :
    main Char_Table fuel s
      = (do
          let s1 ← lcd_clear fuel (lcd_init (lcd_spi_init s))
          let s2 ← demoCalls.foldlM
            (fun st c => lcd_print_str Char_Table c.1 c.2.1 c.2.2 st) s1
          lcd_print_char Char_Table lastSpecial s2) := by
  simp only [main, init, demoCalls, List.foldlM_cons, List.foldlM_nil, bind_assoc,
    pure_bind]

set_option maxRecDepth 100000 in
theorem demo_texts_ok :
    ∀ c ∈ demoCalls, 0 ∈ c.2.2
      ∧ ∀ ch ∈ textChars c.2.2,
          0x20 ≤ ch ∧ ch ≤ 0xFF ∧ 6 ≤ (fullTable.getD (ch - 0x20) []).length := by
  decide

/-- With fuel for `lcd_clear` and a glyph table for the printable range, `main`
reaches its final loop: every call it makes returns. -/
theorem main_returns (fuel : Nat) (s : Mcu) (hf : 138 ≤ fuel) :
    ∃ s1, main fullTable fuel s = some s1 := by
  have hclear : ∀ t : Mcu, lcd_clear fuel t = some (clearPagesFrom 128 9 0 t) := fun t =>
    lcd_clear_pages_eq 8 128 (by decide) (by decide) 9 fuel 0 t (by decide) (by omega)
  have hstr : ∀ c ∈ demoCalls, ∀ t : Mcu,
      lcd_print_str fullTable c.1 c.2.1 c.2.2 t
        = some (sendData ((textChars c.2.2).flatMap (glyphBytes fullTable))
            (lcd_set_cursor c.1 c.2.1 t)) := fun c hc t =>
    lcd_print_str_returns fullTable c.1 c.2.1 c.2.2 t (demo_texts_ok c hc).1
      (demo_texts_ok c hc).2
  have hchar : ∀ t : Mcu, lcd_print_char fullTable lastSpecial t
      = some (sendData (glyphBytes fullTable lastSpecial) t) := fun t =>
    lcd_print_char_eq fullTable lastSpecial t (by decide) (by decide) (by decide)
  simp only [main, init, hclear, Option.some_bind, Option.bind_eq_bind,
    hstr (0, 0, label) (by simp [demoCalls]),
    hstr (1, 0, special1) (by simp [demoCalls]),
    hstr (2, 0, digits) (by simp [demoCalls]),
    hstr (3, 0, special2) (by simp [demoCalls]),
    hstr (4, 0, alphabet1) (by simp [demoCalls]),
    hstr (5, 0, alphabet2) (by simp [demoCalls]),
    hstr (6, 0, alphabet3) (by simp [demoCalls]),
    hstr (7, 0, special3) (by simp [demoCalls]), hchar]
  exact ⟨_, rfl⟩

set_option maxRecDepth 100000 in
/-- C19: the demo in `main` stays inside the documented limits of the driver.
Its eight `lcd_print_str` calls use the pages 0 to 7 in order, each once, and
column 0; each text is terminated, has at most 21 characters, so that six times
its length is at most 128, and consists of codes in [0x20, 0x7F], whose glyph
index is in [0, 0x5F]; the same holds for the code 0x7F passed to the final
`lcd_print_char`.  These calls are the ones `main` makes, in this order. -/
theorem demo_within_limits :
    demoCalls.map (fun c => c.1) = [0, 1, 2, 3, 4, 5, 6, 7]
    ∧ (∀ c ∈ demoCalls,
        c.2.1 = 0
        ∧ 0 ∈ c.2.2
        ∧ (textChars c.2.2).length ≤ 21
        ∧ 6 * (textChars c.2.2).length ≤ LCD_TOTAL_COLUMNS
        ∧ ∀ ch ∈ textChars c.2.2, 0x20 ≤ ch ∧ ch ≤ 0x7F ∧ glyph_index ch ≤ 0x5F)
    ∧ lastSpecial = 0x7F
    ∧ 0x20 ≤ lastSpecial ∧ lastSpecial ≤ 0x7F ∧ glyph_index lastSpecial ≤ 0x5F
    ∧ ∀ (Char_Table : List (List Nat)) (fuel : Nat) (s : Mcu),
        main Char_Table fuel s
          = (do
              let s1 ← lcd_clear fuel (lcd_init (lcd_spi_init s))
              let s2 ← demoCalls.foldlM
                (fun st c => lcd_print_str Char_Table c.1 c.2.1 c.2.2 st) s1
              lcd_print_char Char_Table lastSpecial s2) := by
  refine ⟨by decide, by decide, by decide, by decide, by decide, by decide, ?_⟩
  intro tbl fuel s
  exact main_calls tbl fuel s

end ST7565R
